import Mathlib

/-!
Verification of the aquarium lighting engine (aquarium_control).

Shallow embedding of the pure computational core:
* `rgbw_tuning.py`  — gamut mapping and PWM quantization (over `ℝ`);
* `mooncurve.py`    — lunar gating logic (over `ℚ`);
* `suncurve.py`     — diurnal brightness / color-temperature curve (over `ℝ`);
* `clouds.py`       — stochastic cloud + shimmer multiplier, with the random
  draws passed in explicitly (over `ℝ`);
* `config_loader.py` — date-versioned configuration merge and interpolation
  (over `ℚ`, with JSON values as an inductive type).

Python floats are idealized as exact real (or rational) arithmetic; a Python
exception (`ZeroDivisionError`, `ValueError`, `IndexError`) is modelled by an
`Option`-valued function returning `none`.
-/

namespace Aquarium

/-- Python's float `%` operator: `x % y = x - y * floor (x / y)` (for `y > 0`
this always lands in `[0, y)`, matching Python's sign convention). -/
def fmod {α : Type} [LinearOrderedField α] [FloorRing α] (x y : α) : α :=
  x - y * ⌊x / y⌋

/-! ## rgbw_tuning.py -/

noncomputable section RGBWSection

/-- Source `clamp` from rgbw_tuning.py: `max(lo, min(hi, x))`. -/
def clamp (x lo hi : ℝ) : ℝ := max lo (min hi x)

/-- Source `clamp01` from rgbw_tuning.py. -/
def clamp01 (x : ℝ) : ℝ := clamp x 0 1

/-- The channel computation of `map_rgbw_linear` (rgbw_tuning.py lines
19-46): input clamping, base channels, tint adjustment and the
per-channel clamps.  Intermediate channel values are numbered (`R1`,
`R2`, ...) where the Python reassigns the same variable. -/
def rgbw_channels (I0 w0 s0 t0 : ℝ) : ℝ × ℝ × ℝ × ℝ :=
  let I := clamp01 I0
  let w := clamp01 w0
  let s := clamp s0 0 1
  let t := clamp t0 (-1) 1
  let s_eff := clamp01 (s * (0.25 + 0.75 * w))
  let W1 := I * (1 - s_eff)
  let R1 := I * s_eff * (0.70 + 0.25 * w)
  let G1 := I * s_eff * (0.28 - 0.18 * w)
  let B1 := I * s_eff * (0.12 * (1 - w))
  let adj := 0.12 * |t| * I * s_eff
  let R2 := if 0 < t then R1 - 0.7 * adj else if t < 0 then R1 + 0.9 * adj else R1
  let G2 := if 0 < t then G1 + adj else if t < 0 then G1 - adj else G1
  let B2 := if 0 < t then B1 - 0.3 * adj else if t < 0 then B1 + 0.1 * adj * (1 - w) else B1
  (clamp01 R2, clamp01 G2, clamp01 B2, clamp01 W1)

/-- Source `map_rgbw_linear` from rgbw_tuning.py (lines 12-57): the channel
computation above followed by the optional total-preserving rescale
(lines 48-55). -/
def map_rgbw_linear (I0 w0 s0 t0 : ℝ) (preserve_total : Bool) :
    ℝ × ℝ × ℝ × ℝ :=
  let c := rgbw_channels I0 w0 s0 t0
  let I := clamp01 I0
  if preserve_total then
    let S := c.1 + c.2.1 + c.2.2.1 + c.2.2.2
    if 1e-6 < S then
      let scale := I / S
      (clamp01 (c.1 * scale), clamp01 (c.2.1 * scale),
       clamp01 (c.2.2.1 * scale), clamp01 (c.2.2.2 * scale))
    else c
  else c

/-- Source `_lut_interpolate` from rgbw_tuning.py (lines 60-69). -/
def lut_interpolate (x : ℝ) (lut : List ℝ) : ℝ :=
  match lut with
  | [] => x
  | [v] => v
  | _ :: _ :: _ =>
    let n : ℤ := lut.length
    let pos := clamp01 x * ((n : ℝ) - 1)
    let i : ℤ := ⌊pos⌋
    let frac := pos - (i : ℝ)
    let j : ℤ := min (i + 1) (n - 1)
    lut.getD i.toNat 0 + (lut.getD j.toNat 0 - lut.getD i.toNat 0) * frac

/-- Python 3 `round`: round-half-to-even (banker's rounding). -/
def pyRound (x : ℝ) : ℤ :=
  let f := ⌊x⌋
  let r := x - (f : ℝ)
  if r < 1 / 2 then f
  else if 1 / 2 < r then f + 1
  else if Even f then f else f + 1

/-- Source `linear_to_pwm` from rgbw_tuning.py (lines 72-89).  `max(lut)` on an
empty list raises `ValueError` in Python; this is modelled by `none`.
`x ** gamma` is Real.rpow. -/
def linear_to_pwm (x0 : ℝ) (lut : Option (List ℝ)) (gamma : Option ℝ)
    (pwm_max : ℤ) : Option ℤ :=
  let x := clamp01 x0
  match lut with
  | some l =>
    let y := lut_interpolate x l
    match l.maximum with
    | none => none
    | some m =>
      let y2 := if m ≤ 1 then y * (pwm_max : ℝ) else y
      some (pyRound (clamp y2 0 (pwm_max : ℝ)))
  | none =>
    let g := gamma.getD 1
    let y := clamp01 (x ^ g)
    some (pyRound (y * (pwm_max : ℝ)))

end RGBWSection

/-! ## mooncurve.py (gating logic) -/

section Moon

/-- Source `MoonCurve._in_window` from mooncurve.py (lines 185-202): is `hour` in
`[start, end)`, with wraparound at midnight. -/
def in_window (hour startH endH : ℚ) : Bool :=
  let s := fmod startH 24
  let e := fmod endH 24
  let h := fmod hour 24
  if s < e then decide (s ≤ h ∧ h < e) else decide (s ≤ h ∨ h < e)

/-- Threshold `MoonCurve.ILLUM_THRESHOLD` (0.72). -/
def ILLUM_THRESHOLD : ℚ := 72 / 100

/-- The construction parameters of `MoonCurve` (mooncurve.py lines 50-63). -/
structure MoonCurve where
  max_brightness : ℚ
  dark_start_hour : ℚ
  dark_end_hour : ℚ

/-- The `on` / `brightness` components of the dict returned by
`MoonCurve.get_state` (the remaining fields are phase metadata copied
unchanged from `phase_info`).  The dict key `"on"` is a Lean keyword, so
the field is called `is_on`. -/
structure MoonGate where
  is_on : Bool
  brightness : ℚ
  deriving DecidableEq

/-- The gating logic of `MoonCurve.get_state` (mooncurve.py lines 102-124)
as a function of the locally computed `local_hour` and the illumination
computed by `phase_info`: dark-window gate, then phase gate
(`illum < ILLUM_THRESHOLD`), then `brightness = max_brightness * rel`. -/
def MoonCurve.get_state_gate (m : MoonCurve) (local_hour illum : ℚ) :
    MoonGate :=
  if in_window local_hour m.dark_start_hour m.dark_end_hour then ⟨false, 0⟩
  else if illum < ILLUM_THRESHOLD then ⟨false, 0⟩
  else
    let rel := (illum - ILLUM_THRESHOLD) / (1 - ILLUM_THRESHOLD)
    let rel2 := max 0 (min 1 rel)
    ⟨true, m.max_brightness * rel2⟩

end Moon

/-! ## suncurve.py -/

noncomputable section Sun

/-- The fields of `SunCurve` after `__init__` has reduced `t_start` and
`t_end` mod 24 (suncurve.py lines 16-24); the derived quantities `D`,
`a_unclipped`, `B_peak_eff` and `tau` are definitions below. -/
structure SunCurve where
  t_start : ℝ
  t_end : ℝ
  H_eq : ℝ
  B_peak_max : ℝ
  tau_minutes : ℝ
  delta_T : ℝ
  T_min : ℝ
  T_max : ℝ
  T_blue : ℝ

/-- Source `SunCurve.__init__` (suncurve.py lines 4-24): the raw constructor
arguments with `t_start` and `t_end` reduced mod 24. -/
def SunCurve.make (ts te heq bpm taum dT tmin tmax tblue : ℝ) : SunCurve :=
  ⟨fmod ts 24, fmod te 24, heq, bpm, taum, dT, tmin, tmax, tblue⟩

/-- Source `self.D` (suncurve.py lines 26-29): window length, with a zero-length
window treated as a full 24-hour day. -/
def SunCurve.D (sc : SunCurve) : ℝ :=
  let d := fmod (sc.t_end - sc.t_start) 24
  if d = 0 then 24 else d

/-- Source `self.a_unclipped = 2 * H_eq / D` (suncurve.py line 31). -/
def SunCurve.a_unclipped (sc : SunCurve) : ℝ := 2 * sc.H_eq / sc.D

/-- Source `self.B_peak_eff = min(a_unclipped, B_peak_max)` (suncurve.py line 32). -/
def SunCurve.B_peak_eff (sc : SunCurve) : ℝ := min sc.a_unclipped sc.B_peak_max

/-- Source `self.tau = max(0, min(tau_minutes / 60, D / 4))` (suncurve.py line 33). -/
def SunCurve.tau (sc : SunCurve) : ℝ := max 0 (min (sc.tau_minutes / 60) (sc.D / 4))

/-- Source `SunCurve._local_offset_and_phase` (suncurve.py lines 48-55):
returns `(offset, u, inside)`. -/
def SunCurve.local_offset_and_phase (sc : SunCurve) (t_hours : ℝ) :
    ℝ × ℝ × Bool :=
  let t_mod := fmod t_hours 24
  let offset := fmod (t_mod - sc.t_start) 24
  if offset ≤ sc.D then (offset, offset / sc.D, true) else (offset, 0, false)

/-- Source `SunCurve._shape` (suncurve.py lines 57-58). -/
def SunCurve.shape (u : ℝ) : ℝ := 0.5 * (1 - Real.cos (2 * Real.pi * u))

/-- Source `SunCurve._brightness_float` (suncurve.py lines 60-70). -/
def SunCurve.brightness_float (sc : SunCurve) (t_hours : ℝ) : ℝ :=
  let r := sc.local_offset_and_phase t_hours
  if r.2.2 then
    let s := SunCurve.shape r.2.1
    let B_raw := sc.a_unclipped * s
    if sc.B_peak_max < 1 then max 0 (min B_raw sc.B_peak_max)
    else max 0 B_raw
  else 0

/-- Source `SunCurve._cct_base_from_B` (suncurve.py lines 72-92): 4-segment
piecewise-linear color temperature of normalized brightness. -/
def SunCurve.cct_base_from_B (sc : SunCurve) (B : ℝ) : ℝ :=
  if sc.B_peak_eff ≤ 0 ∨ B ≤ 0 then 0
  else
    let b := max 0 (min (B / sc.B_peak_eff) 1)
    if b ≤ 0 then 0
    else if b ≤ 0.10 then 6000 + (6500 - 6000) * (b / 0.10)
    else if b ≤ 0.25 then 6500 + (3000 - 6500) * ((b - 0.10) / (0.25 - 0.10))
    else if b ≤ 0.85 then 3000 + (6000 - 3000) * ((b - 0.25) / (0.85 - 0.25))
    else 6000 + (6500 - 6000) * ((b - 0.85) / (1 - 0.85))

/-- Source `SunCurve._cct_float` (suncurve.py lines 94-120): base color temperature
plus dawn/dusk bias, Kelvin clamp and blue-hour blending. -/
def SunCurve.cct_float (sc : SunCurve) (t_hours B : ℝ) : ℝ :=
  if B ≤ 0 then 0
  else
    let r := sc.local_offset_and_phase t_hours
    if r.2.2 then
      let offset := r.1
      let u := r.2.1
      let T0 := sc.cct_base_from_B B
      if T0 ≤ 0 then 0
      else
        let T1 := if sc.delta_T ≠ 0 then T0 + sc.delta_T * (0.5 - u) else T0
        let T2 := max sc.T_min (min T1 sc.T_max)
        if 0 < sc.tau then
          if 0 ≤ offset ∧ offset ≤ sc.tau then
            let alpha := offset / sc.tau
            (1 - alpha) * sc.T_blue + alpha * T2
          else if sc.D - sc.tau ≤ offset ∧ offset ≤ sc.D then
            let beta := (sc.D - offset) / sc.tau
            (1 - beta) * sc.T_blue + beta * T2
          else T2
        else T2
    else 0

/-- Source `SunCurve._cct_to_0_1000` (suncurve.py lines 122-127).  Python computes
`(T - T_min) / (T_max - T_min)` with no guard: when `T_max = T_min` this
raises `ZeroDivisionError`, modelled by `none`. -/
def SunCurve.cct_to_0_1000 (sc : SunCurve) (T : ℝ) : Option ℤ :=
  if T ≤ 0 then some 0
  else if sc.T_max - sc.T_min = 0 then none
  else
    let frac := (T - sc.T_min) / (sc.T_max - sc.T_min)
    some (pyRound (1000 * max 0 (min frac 1)))

/-- Source `SunCurve.sample` with `raw=False` (suncurve.py lines 129-146):
returns `(B_i, C_i, is_on)` in device units, or `none` when
`_cct_to_0_1000` raises. -/
def SunCurve.sample (sc : SunCurve) (t_hours : ℝ) : Option (ℤ × ℤ × Bool) :=
  let B := sc.brightness_float t_hours
  let r := sc.local_offset_and_phase t_hours
  if r.2.2 ∧ 0 < B then
    let T := sc.cct_float t_hours B
    match sc.cct_to_0_1000 T with
    | none => none
    | some C_i => some (pyRound (1000 * max 0 (min B 1)), C_i, true)
  else some (0, 0, false)

end Sun

/-! ## clouds.py

The stochastic process is embedded with the random draws made by one
`get_multiplier` call passed in explicitly (`CloudDraws`); Python's
`random.Random` instance is thereby external to the state.  The
calendar-day function `time.localtime`-based `_day_key_from_ts` is an
opaque parameter `dayKeyOf : ℝ → ℤ` (it depends on the host timezone). -/

noncomputable section Clouds

open scoped Classical

/-- Source `DayTypeConfig` from clouds.py (lines 8-26). -/
structure DayTypeConfig where
  name : String
  prob : ℝ
  center_drop : ℝ
  volatility : ℝ
  min_drop : ℝ
  max_drop : ℝ
  cloud_speed : ℝ
  burst_prob_per_min : ℝ
  burst_strength : ℝ
  shimmer_boost : ℝ

/-- The constructor parameters of `CloudDeltaWithShimmer`
(clouds.py lines 62-138), after probability normalization. -/
structure CloudParams where
  day_types : List DayTypeConfig
  cloud_time_scale_sec : ℝ
  shimmer_time_scale_sec : ℝ
  shimmer_amp : ℝ
  shimmer_volatility : ℝ
  max_dt_sec : ℝ

/-- The probability normalization performed in `__init__`
(clouds.py lines 127-130). -/
def normalize_probs (dts : List DayTypeConfig) : List DayTypeConfig :=
  let total := (dts.map DayTypeConfig.prob).sum
  dts.map fun dt => { dt with prob := dt.prob / total }

/-- The mutable per-instance state of `CloudDeltaWithShimmer`
(clouds.py lines 142-152). -/
structure CloudState where
  current_day_key : Option ℤ
  current_day_type : Option DayTypeConfig
  drop : ℝ
  shimmer_state : ℝ
  last_ts : Option ℝ

/-- The initial state set up by `__init__` (clouds.py lines 142-152). -/
def CloudState.init : CloudState := ⟨none, none, 0, 0, none⟩

/-- The random draws one `get_multiplier` call can consume:
`rng.random()` for the day-type roll, `rng.gauss(0,1)` for the cloud and
shimmer OU steps, `rng.random()` for the burst test. -/
structure CloudDraws where
  day_roll : ℝ
  n_cloud : ℝ
  u_burst : ℝ
  n_shimmer : ℝ

/-- The cumulative-probability scan inside `_pick_day_type`
(clouds.py lines 161-166). -/
def pick_scan (r : ℝ) : ℝ → List DayTypeConfig → Option DayTypeConfig
  | _, [] => none
  | acc, dt :: rest =>
      if r ≤ acc + dt.prob then some dt else pick_scan r (acc + dt.prob) rest

/-- Source `_pick_day_type` (clouds.py lines 160-167): cumulative-probability
sampling with fallback to the last entry; `day_types[-1]` on an empty
list raises `IndexError`, modelled by `none`. -/
def pick_day_type (dts : List DayTypeConfig) (r : ℝ) : Option DayTypeConfig :=
  match pick_scan r 0 dts with
  | some dt => some dt
  | none => dts.getLast?

/-- Source `_ensure_day_state` (clouds.py lines 169-177): re-roll the day type
when the calendar day changed, resetting `drop` and `_shimmer_state`.
`none` models the `IndexError` from `_pick_day_type` on an empty
day-type list. -/
def ensure_day_state (dayKeyOf : ℝ → ℤ) (p : CloudParams) (st : CloudState)
    (d : CloudDraws) (now_ts : ℝ) : Option CloudState :=
  let key := dayKeyOf now_ts
  if st.current_day_key = some key then some st
  else
    match pick_day_type p.day_types d.day_roll with
    | none => none
    | some cfg =>
        some { st with
               current_day_key := some key
               current_day_type := some cfg
               drop := cfg.center_drop
               shimmer_state := 0 }

/-- Source `_step_cloud_drop` (clouds.py lines 179-206): one OU step of the cloud
drop plus the optional bright-hole burst, with clamping to
`[min_drop, max_drop]`. -/
def step_cloud_drop (p : CloudParams) (st : CloudState) (d : CloudDraws)
    (dt0 : ℝ) : CloudState :=
  match st.current_day_type with
  | none => st
  | some cfg =>
    let dt := max 0 (min dt0 p.max_dt_sec)
    if dt = 0 then st
    else
      let theta := (1 / p.cloud_time_scale_sec) * cfg.cloud_speed
      let drop1 := st.drop + theta * (cfg.center_drop - st.drop) * dt
                   + cfg.volatility * Real.sqrt dt * d.n_cloud
      let drop2 := max cfg.min_drop (min cfg.max_drop drop1)
      if 0 < cfg.burst_prob_per_min then
        let lam := cfg.burst_prob_per_min / 60
        let pb := 1 - Real.exp (-(lam * dt))
        if d.u_burst < pb then
          let drop3 := drop2 * (1 - cfg.burst_strength)
          { st with drop := max cfg.min_drop (min cfg.max_drop drop3) }
        else { st with drop := drop2 }
      else { st with drop := drop2 }

/-- Source `_step_shimmer` (clouds.py lines 208-225): one OU step of the shimmer
state around 0, clamped to `[-1, 1]`. -/
def step_shimmer (p : CloudParams) (st : CloudState) (d : CloudDraws)
    (dt0 : ℝ) : CloudState :=
  let dt := max 0 (min dt0 p.max_dt_sec)
  if dt = 0 then st
  else
    let theta := 1 / p.shimmer_time_scale_sec
    let s1 := st.shimmer_state + theta * (0 - st.shimmer_state) * dt
              + p.shimmer_volatility * Real.sqrt dt * d.n_shimmer
    { st with shimmer_state := max (-1) (min 1 s1) }

/-- Source `get_multiplier` (clouds.py lines 229-276): returns the multiplicative
factor together with the updated state, or `none` for the `IndexError`
on an empty day-type list. -/
def get_multiplier (dayKeyOf : ℝ → ℤ) (p : CloudParams) (st : CloudState)
    (d : CloudDraws) (now_ts base_brightness : ℝ) :
    Option (ℝ × CloudState) :=
  match ensure_day_state dayKeyOf p st d now_ts with
  | none => none
  | some st1 =>
    let dt := now_ts - (st1.last_ts.getD now_ts)
    let st2 := { st1 with last_ts := some now_ts }
    if base_brightness ≤ 0 ∨ st2.current_day_type = none then some (1, st2)
    else
      let st3 := step_cloud_drop p st2 d dt
      let st4 := step_shimmer p st3 d dt
      match st4.current_day_type with
      | none => none
      | some cfg =>
        let effective_drop := max 0 (-st4.drop)
        let cloud_multiplier := 1 - effective_drop
        let local_amp := p.shimmer_amp * cfg.shimmer_boost
        let shimmer_multiplier := 1 + local_amp * st4.shimmer_state
        let factor0 := cloud_multiplier * shimmer_multiplier
        let max_factor := 1 + local_amp
        some (max 0 (min max_factor factor0), st4)

end Clouds

/-! ## config_loader.py

JSON values are an inductive type with dicts as association lists (Python
dicts always have distinct keys; the well-formedness predicate `jwfVal`
captures this).  Python's `set(a) | set(b)` iteration order is
unspecified; the model fixes the canonical order "keys of `a`, then keys
of `b` not in `a`", which is also the insertion order `dict` merge
produces, so dict equality in Python corresponds to structural equality
of the model.  Dates are day numbers (`ℤ`); `(d1 - d0).days` is `d1 - d0`. -/

section Config

/-- A parsed JSON value.  `_is_number` in config_loader.py accepts
int/float but not bool, so booleans are a separate constructor. -/
inductive JVal where
  | num : ℚ → JVal
  | str : String → JVal
  | jbool : Bool → JVal
  | arr : List JVal → JVal
  | obj : List (String × JVal) → JVal

/-- A Python dict, as an association list. -/
abbrev JObj := List (String × JVal)

/-- Key lookup in a dict (`key in d` / `d[key]`). -/
def jlookup (k : String) : JObj → Option JVal
  | [] => none
  | (k', v) :: rest => if k' = k then some v else jlookup k rest

mutual

/-- The value-level dispatch of `_merge_dict_shallow_inherit`
(config_loader.py lines 49-60): if both sides hold a dict, recurse,
otherwise the new value wins. -/
def mergeVal : JVal → JVal → JVal
  | .obj a, .obj b =>
      .obj (mergeMapped a b ++ b.filter fun e => (jlookup e.1 a).isNone)
  | _, vn => vn

/-- The `result = dict(old)`-then-override pass of
`_merge_dict_shallow_inherit`: each key of `old` keeps its position and
is overridden by `new` (recursively when both values are dicts). -/
def mergeMapped : JObj → JObj → JObj
  | [], _ => []
  | (k, v) :: rest, new =>
      (k, match jlookup k new with
          | none => v
          | some vn => mergeVal v vn) :: mergeMapped rest new

end

/-- Source `_merge_dict_shallow_inherit` (config_loader.py lines 49-60) at the
dict level: keys of `old` (overridden), then the novel keys of `new`. -/
def mergeObj (old new : JObj) : JObj :=
  mergeMapped old new ++ new.filter fun e => (jlookup e.1 old).isNone

mutual

/-- Source `_interp_values` (config_loader.py lines 11-26): numbers interpolate
linearly, dicts recurse, everything else picks the endpoint nearer to
`alpha` (ties to the later endpoint). -/
def interpVal : JVal → JVal → ℚ → JVal
  | .num x, .num y, alpha => .num (x + (y - x) * alpha)
  | .obj a, .obj b, alpha =>
      .obj (interpMapped a b alpha ++ b.filter fun e => (jlookup e.1 a).isNone)
  | a, b, alpha => if alpha < 1 / 2 then a else b

/-- The pass of `_interp_dict` (config_loader.py lines 29-46) over the
keys of `a`: shared keys interpolate, keys only in `a` keep `a`'s value. -/
def interpMapped : JObj → JObj → ℚ → JObj
  | [], _, _ => []
  | (k, v) :: rest, db, alpha =>
      (k, match jlookup k db with
          | none => v
          | some vb => interpVal v vb alpha) :: interpMapped rest db alpha

end

/-- Source `_interp_dict` (config_loader.py lines 29-46) at the dict level:
keys of `a` first, then the keys only in `b`. -/
def interpObj (a b : JObj) (alpha : ℚ) : JObj :=
  interpMapped a b alpha ++ b.filter fun e => (jlookup e.1 a).isNone

mutual

/-- Well-formedness of a JSON value: every dict in it has distinct keys
(always true of values parsed from Python dicts / JSON objects). -/
def jwfVal : JVal → Bool
  | .num _ => true
  | .str _ => true
  | .jbool _ => true
  | .arr _ => true
  | .obj l => decide ((l.map Prod.fst).Nodup) && jwfObj l

/-- Well-formedness of the values stored in a dict. -/
def jwfObj : JObj → Bool
  | [] => true
  | e :: rest => jwfVal e.2 && jwfObj rest

end

/-- Step 2 of `load_runtime_config` (config_loader.py lines 122-129):
fold the date-sorted partial configs into cumulative inherited
snapshots. -/
def snapshotsAux (acc : JObj) : List (ℤ × JObj) → List (ℤ × JObj)
  | [] => []
  | (dd, pcfg) :: rest =>
      let c := mergeObj acc pcfg
      (dd, c) :: snapshotsAux c rest

/-- Source `raw_versions.sort(key=lambda x: x[0])` (config_loader.py line 120):
Python's sort is stable; insertion sort on `≤` of the dates is too. -/
def sortVersions (vs : List (ℤ × JObj)) : List (ℤ × JObj) :=
  List.insertionSort (fun a b => a.1 ≤ b.1) vs

/-- The bracketing-pair loop of `load_runtime_config`
(config_loader.py lines 139-150): the first adjacent pair with
`d0 ≤ now ≤ d1` determines the interpolation; `none` when no pair
matches (the Python loop then keeps its fallback value). -/
def find_bracket (now : ℤ) : List (ℤ × JObj) → Option JObj
  | (d0, c0) :: (d1, c1) :: rest =>
      if d0 ≤ now ∧ now ≤ d1 then
        some (if d0 = d1 then c0
              else
                let total := d1 - d0
                if total ≤ 0 then interpObj c0 c1 0
                else interpObj c0 c1 (((now - d0 : ℤ) : ℚ) / ((total : ℤ) : ℚ)))
      else find_bracket now ((d1, c1) :: rest)
  | _ => none

/-- Step 3 of `load_runtime_config` (config_loader.py lines 131-150) on
an already-built snapshot chain: clamp to the endpoints, otherwise
interpolate within the bracketing pair (fallback: last snapshot).
`none` models the `ValueError` raised on an empty version list. -/
def resolve_chain (ivs : List (ℤ × JObj)) (now : ℤ) : Option JObj :=
  match ivs with
  | [] => none
  | first :: rest =>
      let lastv := (first :: rest).getLast (List.cons_ne_nil _ _)
      if now ≤ first.1 then some first.2
      else if lastv.1 ≤ now then some lastv.2
      else some ((find_bracket now (first :: rest)).getD lastv.2)

/-- Source `load_runtime_config` (config_loader.py lines 63-160) restricted to
its versioned part: sort the `(date, partial config)` entries, build the
cumulative snapshots, resolve at the requested date. -/
def load_runtime_config (vs : List (ℤ × JObj)) (now : ℤ) : Option JObj :=
  resolve_chain (snapshotsAux [] (sortVersions vs)) now

end Config

/-- The worked scenario curve of the spec:
`SunCurve(t_start=6, t_end=20, H_eq=10, B_peak_max=1.0, tau_minutes=0,
delta_T=0, T_min=2700, T_max=6500, T_blue=6500)`. -/
noncomputable def scScenario : SunCurve := ⟨6, 20, 10, 1, 0, 0, 2700, 6500, 6500⟩

/-- A `SunCurve` with degenerate Kelvin bounds `T_max = T_min = 5000`. -/
noncomputable def scDegenerate : SunCurve := ⟨6, 20, 10, 1, 5, 800, 5000, 5000, 6500⟩

/-- State well-formedness invariant of `CloudDeltaWithShimmer`: any
selected day type is one of the configured day types, and a selected
day key comes with a selected day type.  It holds for the initial state
and is preserved by `get_multiplier` (`cloudStateWF_init`,
`cloudStateWF_preserved`), so it holds for every reachable state. -/
def CloudStateWF (p : CloudParams) (st : CloudState) : Prop :=
  (∀ cfg, st.current_day_type = some cfg → cfg ∈ p.day_types) ∧
  (st.current_day_type = none → st.current_day_key = none)

/-- A one-day-type configuration used to instantiate cloud theorems. -/
noncomputable def cloudDayBright : DayTypeConfig :=
  ⟨"bright", 1, 0, 0, 0, 0, 1, 0, 0, 1⟩

/-- Concrete `CloudDeltaWithShimmer` parameters used to instantiate cloud
theorems (`shimmer_amp = 0.04` as in the source defaults). -/
noncomputable def cloudParamsW : CloudParams :=
  ⟨[cloudDayBright], 3600, 25, 4/100, 3/10, 1⟩

/-! ## Helper lemmas -/

section Helpers

variable {α : Type} [LinearOrderedField α] [FloorRing α]

theorem fmod_eq_mul_fract (x : α) {y : α} (hy : y ≠ 0) :
    fmod x y = y * Int.fract (x / y) := by
  rw [fmod, Int.fract, mul_sub, mul_div_cancel₀ _ hy]

theorem fmod_nonneg (x : α) {y : α} (hy : 0 < y) : 0 ≤ fmod x y := by
  rw [fmod_eq_mul_fract x hy.ne']
  exact mul_nonneg hy.le (Int.fract_nonneg _)

theorem fmod_lt (x : α) {y : α} (hy : 0 < y) : fmod x y < y := by
  rw [fmod_eq_mul_fract x hy.ne']
  calc y * Int.fract (x / y) < y * 1 :=
        (mul_lt_mul_left hy).mpr (Int.fract_lt_one _)
    _ = y := mul_one y

theorem fmod_eq_self {x y : α} (h0 : 0 ≤ x) (h1 : x < y) : fmod x y = x := by
  have hy : 0 < y := lt_of_le_of_lt h0 h1
  have hfloor : ⌊x / y⌋ = 0 := by
    rw [Int.floor_eq_zero_iff]
    exact ⟨div_nonneg h0 hy.le, (div_lt_one hy).mpr h1⟩
  simp [fmod, hfloor]

theorem fmod_sub_int_mul (x : α) {y : α} (n : ℤ) (hy : y ≠ 0) :
    fmod (x - y * n) y = fmod x y := by
  have hdiv : (x - y * n) / y = x / y - n := by
    field_simp
  rw [fmod, fmod, hdiv, Int.floor_sub_int]
  push_cast
  ring

end Helpers

/-! ## Claims -/

section MoonClaims

/-- Claim C10: if `dark_start_hour` and `dark_end_hour` are congruent
modulo 24 (a zero-length dark window), `_in_window` returns `True` for
every hour, so `MoonCurve.get_state` returns `on=False` with brightness 0
at every instant regardless of illumination. -/
theorem moon_zero_length_dark_window (m : MoonCurve) (lh illum : ℚ)
    (h : fmod m.dark_start_hour 24 = fmod m.dark_end_hour 24) :
    in_window lh m.dark_start_hour m.dark_end_hour = true ∧
    m.get_state_gate lh illum = ⟨false, 0⟩ := by
  have hw : in_window lh m.dark_start_hour m.dark_end_hour = true := by
    unfold in_window
    rw [h, if_neg (lt_irrefl _), decide_eq_true_iff]
    exact le_or_lt _ _
  refine ⟨hw, ?_⟩
  unfold MoonCurve.get_state_gate
  rw [hw]
  simp

/-- Witness for C10 at concrete inputs: dark window 5..29 (both ≡ 5 mod 24),
local hour 12, illumination 0.72. -/
theorem moon_zero_length_dark_window_witness :
    (fmod (5 : ℚ) 24 = fmod 29 24) ∧
    (in_window 12 5 29 = true ∧
     MoonCurve.get_state_gate ⟨5/100, 5, 29⟩ 12 (72/100) = ⟨false, 0⟩) :=
  ⟨by norm_num [fmod],
   moon_zero_length_dark_window ⟨5/100, 5, 29⟩ 12 (72/100) (by norm_num [fmod])⟩

/-- Claim C3 counterexample: with the default dark window 2..7, at local
hour 12 (outside the window) and illumination exactly 0.72, `get_state`
returns `on=True` (with brightness 0), not `on=False` as claimed: the
phase gate is the strict comparison `illum < 0.72`. -/
theorem moon_threshold_counterexample :
    MoonCurve.get_state_gate ⟨5/100, 2, 7⟩ 12 (72/100) = ⟨true, 0⟩ := by
  unfold MoonCurve.get_state_gate
  norm_num [in_window, fmod, ILLUM_THRESHOLD]

/-- Claim C3 (amended): outside the dark window, `get_state` returns
`on=False` only for illumination strictly below 0.72; at illumination
`≥ 0.72` it returns `on=True` with
`brightness = max_brightness * clamp((illum − 0.72)/(1 − 0.72), 0, 1)`,
which is 0 at the threshold itself. -/
theorem moon_threshold_amended (m : MoonCurve) (lh illum : ℚ)
    (hw : in_window lh m.dark_start_hour m.dark_end_hour = false)
    (hi : ILLUM_THRESHOLD ≤ illum) :
    m.get_state_gate lh illum =
      ⟨true, m.max_brightness *
        max 0 (min 1 ((illum - ILLUM_THRESHOLD) / (1 - ILLUM_THRESHOLD)))⟩ := by
  unfold MoonCurve.get_state_gate
  rw [hw]
  simp [if_neg (not_lt.mpr hi)]

/-- Witness for the amended C3 at concrete inputs: illumination 0.8. -/
theorem moon_threshold_amended_witness :
    (in_window 12 2 7 = false ∧ ILLUM_THRESHOLD ≤ (8/10 : ℚ)) ∧
    MoonCurve.get_state_gate ⟨5/100, 2, 7⟩ 12 (8/10) =
      ⟨true, (5/100 : ℚ) *
        max 0 (min 1 ((8/10 - ILLUM_THRESHOLD) / (1 - ILLUM_THRESHOLD)))⟩ :=
  ⟨⟨by norm_num [in_window, fmod], by norm_num [ILLUM_THRESHOLD]⟩,
   moon_threshold_amended ⟨5/100, 2, 7⟩ 12 (8/10)
     (by norm_num [in_window, fmod]) (by norm_num [ILLUM_THRESHOLD])⟩

end MoonClaims

section CloudFrameClaim

/-- Claim C9: when `base_brightness ≤ 0` and the calendar day of `now_ts`
matches the stored `current_day_key`, `get_multiplier` returns `1.0`,
sets `last_ts := now_ts`, and changes nothing else: `drop` and the
shimmer state do not step (and no random draw is consumed — the draws
are unused on this path). -/
theorem cloud_off_tick_frame (dayKeyOf : ℝ → ℤ) (p : CloudParams)
    (st : CloudState) (d : CloudDraws) (now_ts base_brightness : ℝ)
    (hb : base_brightness ≤ 0)
    (hk : st.current_day_key = some (dayKeyOf now_ts)) :
    get_multiplier dayKeyOf p st d now_ts base_brightness =
      some (1, { st with last_ts := some now_ts }) := by
  unfold get_multiplier ensure_day_state
  rw [if_pos hk]
  simp [hb]

/-- Witness for C9 at a concrete state (day key 0, base brightness 0). -/
theorem cloud_off_tick_frame_witness :
    ((0:ℝ) ≤ 0 ∧
      (⟨some 0, none, 0, 0, none⟩ : CloudState).current_day_key =
        some ((fun _ => (0:ℤ)) (0:ℝ))) ∧
    get_multiplier (fun _ => 0) ⟨[], 3600, 25, 0, 0, 1⟩
        ⟨some 0, none, 0, 0, none⟩ ⟨0, 0, 0, 0⟩ 0 0 =
      some (1, { (⟨some 0, none, 0, 0, none⟩ : CloudState) with
                 last_ts := some 0 }) :=
  ⟨⟨le_refl 0, rfl⟩,
   cloud_off_tick_frame (fun _ => 0) ⟨[], 3600, 25, 0, 0, 1⟩
     ⟨some 0, none, 0, 0, none⟩ ⟨0, 0, 0, 0⟩ 0 0 (le_refl 0) rfl⟩

end CloudFrameClaim

section PwmClaims

/-- Claim C8 (code bug): `linear_to_pwm` with an empty lookup table raises
`ValueError` at `max(lut)` (modelled by `none`), even though
`_lut_interpolate` itself guards the empty table with the identity
fallback (second conjunct: the guard is dead code on this path); with a
non-empty unit-normalized table (here `[0, 1]`, `x = 0.5`) the value is
interpolated at `x*(N-1)` and scaled by `pwm_max`, giving 500. -/
theorem linear_to_pwm_empty_lut :
    linear_to_pwm (1/2) (some []) none 1000 = none ∧
    lut_interpolate (clamp01 (1/2)) [] = clamp01 (1/2) ∧
    linear_to_pwm (1/2) (some [0, 1]) none 1000 = some 500 := by
  refine ⟨?_, rfl, ?_⟩
  · simp [linear_to_pwm, List.maximum_nil]
  · have hmax : ([(0:ℝ), 1]).maximum = some 1 := by
      simp [List.maximum_cons]; rfl
    have hx : clamp01 (1/2 : ℝ) = 1/2 := by
      norm_num [clamp01, clamp]
    have hlut : lut_interpolate (1/2) [(0:ℝ), 1] = 1/2 := by
      norm_num [lut_interpolate, clamp01, clamp, Int.fract]
    have hround : pyRound (500 : ℝ) = 500 := by
      norm_num [pyRound]
    simp only [linear_to_pwm, hmax, hx, hlut]
    norm_num [clamp, hround]

end PwmClaims

section CctClaims

/-- Claim C2 counterexample: with `T_max = T_min = 5000` and positive
temperature `T = 5000`, `_cct_to_0_1000` divides by zero
(`ZeroDivisionError`, modelled by `none`) instead of returning the
midpoint device value 500. -/
theorem cct_degenerate_counterexample :
    scDegenerate.cct_to_0_1000 5000 = none ∧
    scDegenerate.cct_to_0_1000 5000 ≠ some 500 := by
  have h : scDegenerate.cct_to_0_1000 5000 = none := by
    norm_num [SunCurve.cct_to_0_1000, scDegenerate]
  exact ⟨h, by rw [h]; exact fun hc => Option.noConfusion hc⟩

/-- Claim C2 (amended): with degenerate Kelvin bounds `T_max = T_min`,
`_cct_to_0_1000` raises `ZeroDivisionError` (modelled by `none`) for any
positive temperature; only non-positive `T` avoids the division, via the
`T ≤ 0 → 0` guard.  There is no midpoint fallback. -/
theorem cct_degenerate_amended (sc : SunCurve) (T : ℝ)
    (hdeg : sc.T_max = sc.T_min) :
    (0 < T → sc.cct_to_0_1000 T = none) ∧
    (T ≤ 0 → sc.cct_to_0_1000 T = some 0) := by
  unfold SunCurve.cct_to_0_1000
  constructor
  · intro hT
    rw [if_neg (not_le.mpr hT), if_pos (by rw [hdeg, sub_self])]
  · intro hT
    rw [if_pos hT]

/-- Witness for the amended C2 at `T_max = T_min = 5000`, `T = 5000`. -/
theorem cct_degenerate_amended_witness :
    (scDegenerate.T_max = scDegenerate.T_min) ∧
    ((0 < (5000:ℝ) → scDegenerate.cct_to_0_1000 5000 = none) ∧
     ((5000:ℝ) ≤ 0 → scDegenerate.cct_to_0_1000 5000 = some 0)) :=
  ⟨by norm_num [scDegenerate],
   cct_degenerate_amended scDegenerate 5000 (by norm_num [scDegenerate])⟩

end CctClaims

section SunHelpers

theorem SunCurve.D_pos (sc : SunCurve) : 0 < sc.D := by
  unfold SunCurve.D
  by_cases h : fmod (sc.t_end - sc.t_start) 24 = 0
  · simp only [h, if_pos rfl]
    norm_num
  · rw [if_neg h]
    exact lt_of_le_of_ne (fmod_nonneg _ (by norm_num)) (Ne.symm h)

theorem SunCurve.D_le (sc : SunCurve) : sc.D ≤ 24 := by
  unfold SunCurve.D
  by_cases h : fmod (sc.t_end - sc.t_start) 24 = 0
  · simp [h]
  · rw [if_neg h]
    exact (fmod_lt _ (by norm_num)).le

theorem shape_zero : SunCurve.shape 0 = 0 := by
  simp [SunCurve.shape]

theorem shape_half : SunCurve.shape (1/2) = 1 := by
  have h : 2 * Real.pi * (1/2 : ℝ) = Real.pi := by ring
  rw [SunCurve.shape, h, Real.cos_pi]
  norm_num

theorem shape_one : SunCurve.shape 1 = 0 := by
  have h : 2 * Real.pi * (1 : ℝ) = 2 * Real.pi := by ring
  rw [SunCurve.shape, h, Real.cos_two_pi]
  norm_num

theorem shape_nonneg (u : ℝ) : 0 ≤ SunCurve.shape u := by
  have h := Real.cos_le_one (2 * Real.pi * u)
  rw [SunCurve.shape]
  linarith

theorem shape_le_one (u : ℝ) : SunCurve.shape u ≤ 1 := by
  have h := Real.neg_one_le_cos (2 * Real.pi * u)
  rw [SunCurve.shape]
  linarith

/-- The midpoint of the window has offset `D/2` and phase `u = 1/2`. -/
theorem SunCurve.phase_mid (sc : SunCurve) :
    sc.local_offset_and_phase (sc.t_start + sc.D / 2) = (sc.D / 2, 1/2, true) := by
  have hDpos := sc.D_pos
  have hDle := sc.D_le
  have hstep : fmod (fmod (sc.t_start + sc.D / 2) 24 - sc.t_start) 24 = sc.D / 2 := by
    have h24 : (24:ℝ) ≠ 0 := by norm_num
    have hrw : fmod (sc.t_start + sc.D / 2) 24 - sc.t_start
        = sc.D / 2 - 24 * (⌊(sc.t_start + sc.D / 2) / 24⌋ : ℤ) := by
      rw [fmod]; ring
    rw [hrw, fmod_sub_int_mul _ _ h24,
        fmod_eq_self (by linarith) (by linarith)]
  have hu : sc.D / 2 / sc.D = 1/2 := by
    rw [div_div, mul_comm, ← div_div, div_self hDpos.ne']
  simp only [SunCurve.local_offset_and_phase, hstep, hu]
  rw [if_pos (by linarith : sc.D / 2 ≤ sc.D)]

/-- The brightness at the window midpoint: `B_peak_eff` when the
`B_peak_max < 1` clip is active, otherwise the unclipped `a_unclipped`. -/
theorem brightness_mid (sc : SunCurve) (hH : 0 ≤ sc.H_eq)
    (hb0 : 0 ≤ sc.B_peak_max) :
    sc.brightness_float (sc.t_start + sc.D / 2) =
      if sc.B_peak_max < 1 then sc.B_peak_eff else sc.a_unclipped := by
  have ha : 0 ≤ sc.a_unclipped :=
    div_nonneg (by linarith) sc.D_pos.le
  simp only [SunCurve.brightness_float, sc.phase_mid, shape_half, mul_one,
             if_true]
  by_cases hbp : sc.B_peak_max < 1
  · rw [if_pos hbp, if_pos hbp, SunCurve.B_peak_eff]
    exact max_eq_right (le_min ha hb0)
  · rw [if_neg hbp, if_neg hbp]
    exact max_eq_right ha

/-- The window midpoint attains the maximum brightness. -/
theorem brightness_le_mid (sc : SunCurve) (hH : 0 ≤ sc.H_eq)
    (hb0 : 0 ≤ sc.B_peak_max) (t : ℝ) :
    sc.brightness_float t ≤ sc.brightness_float (sc.t_start + sc.D / 2) := by
  have ha : 0 ≤ sc.a_unclipped :=
    div_nonneg (by linarith) sc.D_pos.le
  rw [brightness_mid sc hH hb0]
  unfold SunCurve.brightness_float
  by_cases hin : (sc.local_offset_and_phase t).2.2
  · rw [if_pos hin]
    have hBle : sc.a_unclipped * SunCurve.shape (sc.local_offset_and_phase t).2.1
        ≤ sc.a_unclipped :=
      mul_le_of_le_one_right ha (shape_le_one _)
    by_cases hbp : sc.B_peak_max < 1
    · rw [if_pos hbp, if_pos hbp, SunCurve.B_peak_eff]
      calc max 0 (min (sc.a_unclipped * SunCurve.shape (sc.local_offset_and_phase t).2.1)
              sc.B_peak_max)
          ≤ max 0 (min sc.a_unclipped sc.B_peak_max) :=
            max_le_max le_rfl (min_le_min hBle le_rfl)
        _ = min sc.a_unclipped sc.B_peak_max := max_eq_right (le_min ha hb0)
    · rw [if_neg hbp, if_neg hbp]
      calc max 0 (sc.a_unclipped * SunCurve.shape (sc.local_offset_and_phase t).2.1)
          ≤ max 0 sc.a_unclipped := max_le_max le_rfl hBle
        _ = sc.a_unclipped := max_eq_right ha
  · rw [if_neg hin]
    by_cases hbp : sc.B_peak_max < 1
    · rw [if_pos hbp, SunCurve.B_peak_eff]
      exact le_min ha hb0
    · rw [if_neg hbp]
      exact ha

theorem scScenario_t_start : scScenario.t_start = 6 := rfl

theorem scScenario_t_end : scScenario.t_end = 20 := rfl

theorem scScenario_H_eq : scScenario.H_eq = 10 := rfl

theorem scScenario_B_peak_max : scScenario.B_peak_max = 1 := rfl

theorem scScenario_tau_minutes : scScenario.tau_minutes = 0 := rfl

theorem scScenario_delta_T : scScenario.delta_T = 0 := rfl

theorem scScenario_T_min : scScenario.T_min = 2700 := rfl

theorem scScenario_T_max : scScenario.T_max = 6500 := rfl

theorem scScenario_D : scScenario.D = 14 := by
  norm_num [SunCurve.D, scScenario_t_start, scScenario_t_end, fmod]

theorem scScenario_a : scScenario.a_unclipped = 10/7 := by
  rw [SunCurve.a_unclipped, scScenario_D, scScenario_H_eq]
  norm_num

theorem scScenario_peak_eff : scScenario.B_peak_eff = 1 := by
  rw [SunCurve.B_peak_eff, scScenario_a, scScenario_B_peak_max]
  exact min_eq_right (by norm_num)

theorem scScenario_tau : scScenario.tau = 0 := by
  rw [SunCurve.tau, scScenario_D, scScenario_tau_minutes]
  norm_num

theorem scScenario_phase_6 : scScenario.local_offset_and_phase 6 = (0, 0, true) := by
  norm_num [SunCurve.local_offset_and_phase, scScenario_t_start, scScenario_D, fmod]

theorem scScenario_phase_13 :
    scScenario.local_offset_and_phase 13 = (7, 1/2, true) := by
  norm_num [SunCurve.local_offset_and_phase, scScenario_t_start, scScenario_D, fmod]

theorem scScenario_phase_20 :
    scScenario.local_offset_and_phase 20 = (14, 1, true) := by
  norm_num [SunCurve.local_offset_and_phase, scScenario_t_start, scScenario_D, fmod]

theorem scScenario_B6 : scScenario.brightness_float 6 = 0 := by
  norm_num [SunCurve.brightness_float, scScenario_phase_6, shape_zero,
            scScenario_B_peak_max]

theorem scScenario_B13 : scScenario.brightness_float 13 = 10/7 := by
  have hmax : max (0:ℝ) (10/7) = 10/7 := max_eq_right (by norm_num)
  norm_num [SunCurve.brightness_float, scScenario_phase_13, shape_half,
            scScenario_a, scScenario_B_peak_max, hmax]

theorem scScenario_B20 : scScenario.brightness_float 20 = 0 := by
  norm_num [SunCurve.brightness_float, scScenario_phase_20, shape_one,
            scScenario_B_peak_max]

theorem scScenario_sample_6 : scScenario.sample 6 = some (0, 0, false) := by
  norm_num [SunCurve.sample, scScenario_B6]

theorem scScenario_sample_20 : scScenario.sample 20 = some (0, 0, false) := by
  norm_num [SunCurve.sample, scScenario_B20]

theorem pyRound_1000 : pyRound (1000 : ℝ) = 1000 := by
  norm_num [pyRound]

theorem scScenario_cct_13 : scScenario.cct_float 13 (10/7) = 6500 := by
  have hbase : scScenario.cct_base_from_B (10/7) = 6500 := by
    have hmin : min ((10:ℝ)/7 / 1) 1 = 1 := min_eq_right (by norm_num)
    have hmax : max (0:ℝ) 1 = 1 := max_eq_right (by norm_num)
    norm_num [SunCurve.cct_base_from_B, scScenario_peak_eff, hmin, hmax]
  have hT2 : max scScenario.T_min (min (6500:ℝ) scScenario.T_max) = 6500 := by
    rw [scScenario_T_min, scScenario_T_max, min_self]
    exact max_eq_right (by norm_num)
  norm_num [SunCurve.cct_float, scScenario_phase_13, hbase, scScenario_tau,
            scScenario_delta_T, hT2]

theorem scScenario_sample_13 :
    scScenario.sample 13 = some (1000, 1000, true) := by
  have hcct : scScenario.cct_to_0_1000 6500 = some 1000 := by
    have hfrac : ((6500:ℝ) - scScenario.T_min) / (scScenario.T_max - scScenario.T_min) = 1 := by
      rw [scScenario_T_min, scScenario_T_max]; norm_num
    have hmm : (1000:ℝ) * max 0 (min 1 1) = 1000 := by
      rw [min_self]
      rw [max_eq_right (by norm_num : (0:ℝ) ≤ 1)]
      norm_num
    norm_num [SunCurve.cct_to_0_1000, scScenario_T_min, scScenario_T_max,
              hfrac, hmm, pyRound_1000]
  have hB : (1000:ℝ) * max 0 (min (10/7) 1) = 1000 := by
    rw [min_eq_right (by norm_num : (1:ℝ) ≤ 10/7),
        max_eq_right (by norm_num : (0:ℝ) ≤ 1)]
    norm_num
  norm_num [SunCurve.sample, scScenario_B13, scScenario_phase_13,
            scScenario_cct_13, hcct, hB, pyRound_1000]

end SunHelpers

section SunClaims

/-- Claim C1 counterexample: for the scenario curve, `sample(6.0)` returns
`on=False` (the code's `is_on = inside and (B > 0.0)` is false at the
window edge where brightness is 0), not `on=True` as the claim states. -/
theorem sun_scenario_counterexample :
    scScenario.sample 6 = some (0, 0, false) ∧
    (scScenario.sample 6).map (fun r => r.2.2) ≠ some true := by
  refine ⟨scScenario_sample_6, ?_⟩
  rw [scScenario_sample_6]
  simp

/-- Claim C1 (amended): for the scenario curve (`D = 14`), `sample(6.0)`
returns brightness 0 with `on=False` (the on-flag requires positive
brightness); `sample(13.0)` returns full-scale device brightness 1000
(raw brightness `10/7` clamped to 1 in the quantization) with `on=True`;
`sample(20.0)` returns `on=False` (brightness is 0 at `offset == D`,
although `offset <= D` itself is inclusive). -/
theorem sun_scenario_amended :
    scScenario.sample 6 = some (0, 0, false) ∧
    scScenario.sample 13 = some (1000, 1000, true) ∧
    scScenario.sample 20 = some (0, 0, false) :=
  ⟨scScenario_sample_6, scScenario_sample_13, scScenario_sample_20⟩

/-- Claim C7 counterexample: for the scenario curve (`B_peak_max = 1`,
`a_unclipped = 10/7`), the brightness at the window midpoint is
`10/7 ≠ 1 = B_peak_eff`: the `B_peak_max` clip is skipped when
`B_peak_max < 1` fails. -/
theorem sun_peak_counterexample :
    scScenario.brightness_float (scScenario.t_start + scScenario.D / 2) ≠
      scScenario.B_peak_eff := by
  have h1 : scScenario.t_start + scScenario.D / 2 = 13 := by
    rw [scScenario_t_start, scScenario_D]; norm_num
  rw [h1, scScenario_B13, scScenario_peak_eff]
  norm_num

/-- Claim C7 (amended): for every curve with `H_eq ≥ 0` and
`B_peak_max ∈ [0, 1]`, `sample(t_start + D/2)` attains the maximum
brightness of the whole window, and that maximum equals `B_peak_eff`
when `B_peak_max < 1`; when `B_peak_max = 1` the clip branch is skipped
and the maximum is the unclipped `a_unclipped = 2·H_eq/D` (which exceeds
`B_peak_eff` whenever `a_unclipped > B_peak_max`). -/
theorem sun_peak_amended (sc : SunCurve) (hH : 0 ≤ sc.H_eq)
    (hb0 : 0 ≤ sc.B_peak_max) (hb1 : sc.B_peak_max ≤ 1) :
    (∀ t, sc.brightness_float t ≤ sc.brightness_float (sc.t_start + sc.D / 2)) ∧
    sc.brightness_float (sc.t_start + sc.D / 2) =
      (if sc.B_peak_max < 1 then sc.B_peak_eff else sc.a_unclipped) :=
  ⟨fun t => brightness_le_mid sc hH hb0 t, brightness_mid sc hH hb0⟩

/-- Witness for the amended C7 at the scenario curve. -/
theorem sun_peak_amended_witness :
    (0 ≤ scScenario.H_eq ∧ 0 ≤ scScenario.B_peak_max ∧
     scScenario.B_peak_max ≤ 1) ∧
    ((∀ t, scScenario.brightness_float t ≤
        scScenario.brightness_float (scScenario.t_start + scScenario.D / 2)) ∧
     scScenario.brightness_float (scScenario.t_start + scScenario.D / 2) =
       (if scScenario.B_peak_max < 1 then scScenario.B_peak_eff
        else scScenario.a_unclipped)) :=
  ⟨⟨by norm_num [scScenario], by norm_num [scScenario], by norm_num [scScenario]⟩,
   sun_peak_amended scScenario (by norm_num [scScenario])
     (by norm_num [scScenario]) (by norm_num [scScenario])⟩

end SunClaims

section RgbwClaims

theorem clamp01_nonneg (x : ℝ) : 0 ≤ clamp01 x := le_max_left _ _

theorem clamp01_le_one (x : ℝ) : clamp01 x ≤ 1 :=
  max_le zero_le_one (min_le_left _ _)

theorem clamp01_eq_self {x : ℝ} (h0 : 0 ≤ x) (h1 : x ≤ 1) : clamp01 x = x := by
  rw [clamp01, clamp, min_eq_right h1, max_eq_right h0]

theorem le_clamp01_of_le_one {x : ℝ} (h1 : x ≤ 1) : x ≤ clamp01 x := by
  rw [clamp01, clamp, min_eq_right h1]
  exact le_max_right _ _

theorem clamp01_eq_one_of_one_le {x : ℝ} (h : 1 ≤ x) : clamp01 x = 1 := by
  rw [clamp01, clamp, min_eq_left h, max_eq_right zero_le_one]

/-- If the pre-clamp channel sum is at least `I ≤ 1`, so is the sum of the
individually clamped channels: either no channel is clamped down, or a
clamped channel alone contributes 1 ≥ I. -/
theorem clamp_sum_ge {I a b c d : ℝ} (hI1 : I ≤ 1)
    (hpre : I ≤ a + b + c + d) :
    I ≤ clamp01 a + clamp01 b + clamp01 c + clamp01 d := by
  have h0a := clamp01_nonneg a
  have h0b := clamp01_nonneg b
  have h0c := clamp01_nonneg c
  have h0d := clamp01_nonneg d
  by_cases ha : a ≤ 1
  · by_cases hb : b ≤ 1
    · by_cases hc : c ≤ 1
      · by_cases hd : d ≤ 1
        · have la := le_clamp01_of_le_one ha
          have lb := le_clamp01_of_le_one hb
          have lc := le_clamp01_of_le_one hc
          have ld := le_clamp01_of_le_one hd
          linarith
        · have h1 := clamp01_eq_one_of_one_le (not_le.mp hd).le
          linarith
      · have h1 := clamp01_eq_one_of_one_le (not_le.mp hc).le
        linarith
    · have h1 := clamp01_eq_one_of_one_le (not_le.mp hb).le
      linarith
  · have h1 := clamp01_eq_one_of_one_le (not_le.mp ha).le
    linarith

/-- The clamped channels of `rgbw_channels` are each in `[0,1]` and their
sum is at least the clamped intensity `I`. -/
theorem rgbw_channels_spec (I0 w0 s0 t0 : ℝ) :
    ∃ Rc Gc Bc Wc, rgbw_channels I0 w0 s0 t0 = (Rc, Gc, Bc, Wc) ∧
      (0 ≤ Rc ∧ Rc ≤ 1) ∧ (0 ≤ Gc ∧ Gc ≤ 1) ∧ (0 ≤ Bc ∧ Bc ≤ 1) ∧
      (0 ≤ Wc ∧ Wc ≤ 1) ∧ clamp01 I0 ≤ Rc + Gc + Bc + Wc := by
  refine ⟨_, _, _, _, rfl, ⟨clamp01_nonneg _, clamp01_le_one _⟩,
    ⟨clamp01_nonneg _, clamp01_le_one _⟩, ⟨clamp01_nonneg _, clamp01_le_one _⟩,
    ⟨clamp01_nonneg _, clamp01_le_one _⟩, ?_⟩
  set I := clamp01 I0 with hI_def
  set w := clamp01 w0 with hw_def
  set s := clamp s0 0 1 with hs_def
  set t := clamp t0 (-1) 1 with ht_def
  set s_eff := clamp01 (s * (0.25 + 0.75 * w)) with hse_def
  have hI0 : 0 ≤ I := clamp01_nonneg _
  have hI1 : I ≤ 1 := clamp01_le_one _
  have hw0 : 0 ≤ w := clamp01_nonneg _
  have hw1 : w ≤ 1 := clamp01_le_one _
  have hse0 : 0 ≤ s_eff := clamp01_nonneg _
  have hse1 : s_eff ≤ 1 := clamp01_le_one _
  have ht_lb : -1 ≤ t := le_max_left _ _
  have ht_ub : t ≤ 1 := max_le (by norm_num) (min_le_left _ _)
  have hIs : 0 ≤ I * s_eff := mul_nonneg hI0 hse0
  rcases lt_trichotomy 0 t with htp | htz | htn
  · rw [if_pos htp, if_pos htp, if_pos htp, abs_of_pos htp]
    refine clamp_sum_ge hI1 ?_
    nlinarith [mul_nonneg hIs (by linarith : (0:ℝ) ≤ 0.10 - 0.05 * w)]
  · have hnp : ¬ 0 < t := by rw [← htz]; exact lt_irrefl 0
    have hnn : ¬ t < 0 := by rw [← htz]; exact lt_irrefl 0
    rw [if_neg hnp, if_neg hnp, if_neg hnp, if_neg hnn, if_neg hnn, if_neg hnn]
    refine clamp_sum_ge hI1 ?_
    nlinarith [mul_nonneg hIs (by linarith : (0:ℝ) ≤ 0.10 - 0.05 * w)]
  · rw [if_neg (asymm htn), if_neg (asymm htn), if_neg (asymm htn),
        if_pos htn, if_pos htn, if_pos htn, abs_of_neg htn]
    refine clamp_sum_ge hI1 ?_
    have hnt0 : 0 ≤ -t := neg_nonneg.mpr htn.le
    have hnt1 : -t ≤ 1 := by linarith
    have hwt : w * -t ≤ 1 := mul_le_one₀ hw1 hnt0 hnt1
    have hwt0 : 0 ≤ w * -t := mul_nonneg hw0 hnt0
    have hinner : (0:ℝ) ≤ 0.10 - 0.05 * w - 0.012 * (w * -t) := by linarith
    nlinarith [mul_nonneg hIs hinner]

/-- Claim C4: with `preserve_total=True` and clamped intensity above the
`1e-6` guard, `map_rgbw_linear` returns four channels in `[0,1]` whose
sum is exactly the clamped intensity `I`. -/
theorem map_rgbw_preserves_total (I0 w0 s0 t0 : ℝ)
    (hI6 : 1e-6 < clamp01 I0) :
    ∃ R G B W, map_rgbw_linear I0 w0 s0 t0 true = (R, G, B, W) ∧
      (0 ≤ R ∧ R ≤ 1) ∧ (0 ≤ G ∧ G ≤ 1) ∧ (0 ≤ B ∧ B ≤ 1) ∧
      (0 ≤ W ∧ W ≤ 1) ∧ R + G + B + W = clamp01 I0 := by
  obtain ⟨Rc, Gc, Bc, Wc, hc, ⟨hR0, hR1⟩, ⟨hG0, hG1⟩, ⟨hB0, hB1⟩, ⟨hW0, hW1⟩,
    hsum⟩ := rgbw_channels_spec I0 w0 s0 t0
  have hI0 : 0 ≤ clamp01 I0 := clamp01_nonneg _
  have hI1 : clamp01 I0 ≤ 1 := clamp01_le_one _
  have hIpos : 0 < clamp01 I0 := lt_trans (by norm_num) hI6
  have hSpos : 0 < Rc + Gc + Bc + Wc := lt_of_lt_of_le hIpos hsum
  have hS6 : (1e-6 : ℝ) < Rc + Gc + Bc + Wc := lt_of_lt_of_le hI6 hsum
  set scale := clamp01 I0 / (Rc + Gc + Bc + Wc) with hscale_def
  have hscale0 : 0 ≤ scale := div_nonneg hI0 hSpos.le
  have hscale1 : scale ≤ 1 := (div_le_one hSpos).mpr hsum
  have hRs : clamp01 (Rc * scale) = Rc * scale :=
    clamp01_eq_self (mul_nonneg hR0 hscale0) (mul_le_one₀ hR1 hscale0 hscale1)
  have hGs : clamp01 (Gc * scale) = Gc * scale :=
    clamp01_eq_self (mul_nonneg hG0 hscale0) (mul_le_one₀ hG1 hscale0 hscale1)
  have hBs : clamp01 (Bc * scale) = Bc * scale :=
    clamp01_eq_self (mul_nonneg hB0 hscale0) (mul_le_one₀ hB1 hscale0 hscale1)
  have hWs : clamp01 (Wc * scale) = Wc * scale :=
    clamp01_eq_self (mul_nonneg hW0 hscale0) (mul_le_one₀ hW1 hscale0 hscale1)
  refine ⟨Rc * scale, Gc * scale, Bc * scale, Wc * scale, ?_,
    ⟨mul_nonneg hR0 hscale0, mul_le_one₀ hR1 hscale0 hscale1⟩,
    ⟨mul_nonneg hG0 hscale0, mul_le_one₀ hG1 hscale0 hscale1⟩,
    ⟨mul_nonneg hB0 hscale0, mul_le_one₀ hB1 hscale0 hscale1⟩,
    ⟨mul_nonneg hW0 hscale0, mul_le_one₀ hW1 hscale0 hscale1⟩, ?_⟩
  · simp only [map_rgbw_linear, hc, if_true]
    rw [if_pos hS6, hRs, hGs, hBs, hWs]
  · have : (Rc + Gc + Bc + Wc) * scale = clamp01 I0 := by
      rw [hscale_def, mul_comm, div_mul_cancel₀ _ hSpos.ne']
    linarith [this]

/-- Witness for C4 at `I=1, w=0, s=0, t=0`. -/
theorem map_rgbw_preserves_total_witness :
    (1e-6 < clamp01 1) ∧
    (∃ R G B W, map_rgbw_linear 1 0 0 0 true = (R, G, B, W) ∧
      (0 ≤ R ∧ R ≤ 1) ∧ (0 ≤ G ∧ G ≤ 1) ∧ (0 ≤ B ∧ B ≤ 1) ∧
      (0 ≤ W ∧ W ≤ 1) ∧ R + G + B + W = clamp01 1) :=
  ⟨by rw [clamp01_eq_self (by norm_num) (by norm_num)]; norm_num,
   map_rgbw_preserves_total 1 0 0 0
     (by rw [clamp01_eq_self (by norm_num) (by norm_num)]; norm_num)⟩

end RgbwClaims

section CloudInvariantClaim

theorem pick_scan_mem {r : ℝ} {acc : ℝ} {dts : List DayTypeConfig}
    {cfg : DayTypeConfig} (h : pick_scan r acc dts = some cfg) : cfg ∈ dts := by
  induction dts generalizing acc with
  | nil => simp [pick_scan] at h
  | cons dt rest ih =>
    rw [pick_scan] at h
    by_cases hc : r ≤ acc + dt.prob
    · rw [if_pos hc] at h
      exact (Option.some.inj h) ▸ List.mem_cons_self dt rest
    · rw [if_neg hc] at h
      exact List.mem_cons_of_mem _ (ih h)

theorem pick_day_type_mem {dts : List DayTypeConfig} {r : ℝ}
    {cfg : DayTypeConfig} (h : pick_day_type dts r = some cfg) : cfg ∈ dts := by
  unfold pick_day_type at h
  cases hscan : pick_scan r 0 dts with
  | some dt =>
    rw [hscan] at h
    exact (Option.some.inj h) ▸ pick_scan_mem hscan
  | none =>
    rw [hscan] at h
    obtain ⟨hne, heq⟩ :=
      List.mem_getLast?_eq_getLast (Option.mem_def.mpr h)
    exact heq ▸ List.getLast_mem hne

theorem pick_day_type_total {dts : List DayTypeConfig} (hne : dts ≠ [])
    (r : ℝ) : ∃ cfg, pick_day_type dts r = some cfg ∧ cfg ∈ dts := by
  cases hpick : pick_day_type dts r with
  | some cfg => exact ⟨cfg, rfl, pick_day_type_mem hpick⟩
  | none =>
    exfalso
    unfold pick_day_type at hpick
    cases hscan : pick_scan r 0 dts with
    | some dt => rw [hscan] at hpick; exact Option.noConfusion hpick
    | none =>
      rw [hscan] at hpick
      exact hne (List.getLast?_eq_none_iff.mp hpick)

/-- After `_ensure_day_state` on a non-empty day-type list from a
well-formed state, a day type from the configured list is selected. -/
theorem ensure_day_state_spec (dayKeyOf : ℝ → ℤ) (p : CloudParams)
    (st : CloudState) (d : CloudDraws) (now : ℝ)
    (hne : p.day_types ≠ []) (hwf : CloudStateWF p st) :
    ∃ st1 cfg, ensure_day_state dayKeyOf p st d now = some st1 ∧
      cfg ∈ p.day_types ∧ st1.current_day_type = some cfg := by
  unfold ensure_day_state
  by_cases hk : st.current_day_key = some (dayKeyOf now)
  · rw [if_pos hk]
    cases hct : st.current_day_type with
    | none =>
      rw [hwf.2 hct] at hk
      exact absurd hk (by simp)
    | some cfg => exact ⟨st, cfg, rfl, hwf.1 cfg hct, hct⟩
  · rw [if_neg hk]
    obtain ⟨cfg, hpick, hmem⟩ := pick_day_type_total hne d.day_roll
    rw [hpick]
    exact ⟨_, cfg, rfl, hmem, rfl⟩

theorem step_cloud_drop_day_type (p : CloudParams) (st : CloudState)
    (d : CloudDraws) (dt0 : ℝ) :
    (step_cloud_drop p st d dt0).current_day_type = st.current_day_type := by
  cases hct : st.current_day_type with
  | none => simp only [step_cloud_drop, hct]
  | some cfg =>
    simp only [step_cloud_drop, hct]
    split_ifs <;> first | exact hct | rfl

theorem step_shimmer_day_type (p : CloudParams) (st : CloudState)
    (d : CloudDraws) (dt0 : ℝ) :
    (step_shimmer p st d dt0).current_day_type = st.current_day_type := by
  simp only [step_shimmer]
  split_ifs <;> rfl

/-- Claim C5: for valid parameters (non-empty day-type list,
`shimmer_amp ≥ 0`, every `shimmer_boost ≥ 0`) and any well-formed state
(which covers every reachable state, by `cloudStateWF_init` and
`cloudStateWF_preserved`), `get_multiplier` succeeds and the returned
factor lies in `[0, 1 + shimmer_amp * shimmer_boost]` for the currently
selected day type — including the `1.0` returned on off ticks. -/
theorem cloud_factor_bounded (dayKeyOf : ℝ → ℤ) (p : CloudParams)
    (st : CloudState) (d : CloudDraws) (now_ts base_brightness : ℝ)
    (hne : p.day_types ≠ [])
    (hamp : 0 ≤ p.shimmer_amp)
    (hboost : ∀ cfg ∈ p.day_types, 0 ≤ cfg.shimmer_boost)
    (hwf : CloudStateWF p st) :
    ∃ f st' cfg, get_multiplier dayKeyOf p st d now_ts base_brightness =
        some (f, st') ∧ cfg ∈ p.day_types ∧
      st'.current_day_type = some cfg ∧
      0 ≤ f ∧ f ≤ 1 + p.shimmer_amp * cfg.shimmer_boost := by
  obtain ⟨st1, cfg, hens, hmem, hct⟩ :=
    ensure_day_state_spec dayKeyOf p st d now_ts hne hwf
  have hb0 : 0 ≤ p.shimmer_amp * cfg.shimmer_boost :=
    mul_nonneg hamp (hboost cfg hmem)
  simp only [get_multiplier, hens]
  set st2 : CloudState := { st1 with last_ts := some now_ts } with hst2
  have hct2 : st2.current_day_type = some cfg := hct
  by_cases hb : base_brightness ≤ 0 ∨ st2.current_day_type = none
  · rw [if_pos hb]
    exact ⟨1, st2, cfg, rfl, hmem, hct2, by norm_num, by linarith⟩
  · rw [if_neg hb]
    set dt := now_ts - (st1.last_ts.getD now_ts) with hdt
    set st3 := step_cloud_drop p st2 d dt with hst3
    set st4 := step_shimmer p st3 d dt with hst4
    have hct4 : st4.current_day_type = some cfg := by
      rw [hst4, step_shimmer_day_type, hst3, step_cloud_drop_day_type]
      exact hct2
    simp only [hct4]
    refine ⟨_, st4, cfg, rfl, hmem, hct4, le_max_left _ _, ?_⟩
    exact max_le (by linarith) (min_le_left _ _)

theorem cloudStateWF_init (p : CloudParams) : CloudStateWF p CloudState.init :=
  ⟨fun cfg h => absurd h (by simp [CloudState.init]), fun _ => rfl⟩

/-- The function `get_multiplier` preserves the state well-formedness invariant, so
`CloudStateWF` holds of every state reachable from `CloudState.init`. -/
theorem cloudStateWF_preserved (dayKeyOf : ℝ → ℤ) (p : CloudParams)
    (st : CloudState) (d : CloudDraws) (now_ts base_brightness f : ℝ)
    (st' : CloudState) (hne : p.day_types ≠ []) (hwf : CloudStateWF p st)
    (h : get_multiplier dayKeyOf p st d now_ts base_brightness =
      some (f, st')) : CloudStateWF p st' := by
  obtain ⟨st1, cfg, hens, hmem, hct⟩ :=
    ensure_day_state_spec dayKeyOf p st d now_ts hne hwf
  have wf_of : ∀ s : CloudState, s.current_day_type = some cfg →
      CloudStateWF p s := by
    intro s hc
    refine ⟨fun c hcc => ?_, fun hn => ?_⟩
    · rw [hc] at hcc
      exact (Option.some.inj hcc) ▸ hmem
    · rw [hc] at hn
      exact Option.noConfusion hn
  simp only [get_multiplier, hens] at h
  set st2 : CloudState := { st1 with last_ts := some now_ts } with hst2
  have hct2 : st2.current_day_type = some cfg := hct
  by_cases hb : base_brightness ≤ 0 ∨ st2.current_day_type = none
  · rw [if_pos hb] at h
    have hst : st2 = st' := (Prod.mk.injEq .. ▸ Option.some.inj h).2
    exact hst ▸ wf_of st2 hct2
  · rw [if_neg hb] at h
    set dt := now_ts - (st1.last_ts.getD now_ts) with hdt
    set st3 := step_cloud_drop p st2 d dt with hst3
    set st4 := step_shimmer p st3 d dt with hst4
    have hct4 : st4.current_day_type = some cfg := by
      rw [hst4, step_shimmer_day_type, hst3, step_cloud_drop_day_type]
      exact hct2
    simp only [hct4] at h
    have hst : st4 = st' := (Prod.mk.injEq .. ▸ Option.some.inj h).2
    exact hst ▸ wf_of st4 hct4

/-- Witness for C5: the initial state, one day type, base brightness 1. -/
theorem cloud_factor_bounded_witness :
    (cloudParamsW.day_types ≠ [] ∧ 0 ≤ cloudParamsW.shimmer_amp ∧
     (∀ cfg ∈ cloudParamsW.day_types, 0 ≤ cfg.shimmer_boost) ∧
     CloudStateWF cloudParamsW CloudState.init) ∧
    (∃ f st' cfg, get_multiplier (fun _ => 0) cloudParamsW CloudState.init
        ⟨0, 0, 0, 0⟩ 0 1 = some (f, st') ∧ cfg ∈ cloudParamsW.day_types ∧
      st'.current_day_type = some cfg ∧
      0 ≤ f ∧ f ≤ 1 + cloudParamsW.shimmer_amp * cfg.shimmer_boost) :=
  ⟨⟨by simp [cloudParamsW], by norm_num [cloudParamsW],
    fun cfg hc => by
      simp only [cloudParamsW, List.mem_singleton] at hc
      rw [hc]
      norm_num [cloudDayBright],
    cloudStateWF_init _⟩,
   cloud_factor_bounded (fun _ => 0) cloudParamsW CloudState.init ⟨0, 0, 0, 0⟩
     0 1 (by simp [cloudParamsW]) (by norm_num [cloudParamsW])
     (fun cfg hc => by
       simp only [cloudParamsW, List.mem_singleton] at hc
       rw [hc]
       norm_num [cloudDayBright])
     (cloudStateWF_init _)⟩

end CloudInvariantClaim

section ConfigHelpers

theorem jlookup_append_left {k : String} {l1 l2 : JObj} {v : JVal}
    (h : jlookup k l1 = some v) : jlookup k (l1 ++ l2) = some v := by
  induction l1 with
  | nil => simp [jlookup] at h
  | cons e rest ih =>
    obtain ⟨k', v'⟩ := e
    rw [List.cons_append, jlookup]
    rw [jlookup] at h
    by_cases hk : k' = k
    · rw [if_pos hk] at h ⊢
      exact h
    · rw [if_neg hk] at h ⊢
      exact ih h

theorem jlookup_append_right {k : String} {l1 l2 : JObj}
    (h : jlookup k l1 = none) : jlookup k (l1 ++ l2) = jlookup k l2 := by
  induction l1 with
  | nil => simp
  | cons e rest ih =>
    obtain ⟨k', v'⟩ := e
    rw [List.cons_append, jlookup]
    rw [jlookup] at h
    by_cases hk : k' = k
    · rw [if_pos hk] at h
      exact absurd h (by simp)
    · rw [if_neg hk] at h ⊢
      exact ih h

theorem jlookup_none_iff {k : String} {l : JObj} :
    jlookup k l = none ↔ k ∉ l.map Prod.fst := by
  induction l with
  | nil => simp [jlookup]
  | cons e rest ih =>
    obtain ⟨k', v'⟩ := e
    rw [jlookup]
    by_cases hk : k' = k
    · subst hk
      simp
    · rw [if_neg hk]
      simp only [List.map_cons, List.mem_cons, ih]
      constructor
      · intro hn hor
        rcases hor with h1 | h2
        · exact hk h1.symm
        · exact hn h2
      · intro hn
        exact fun h2 => hn (Or.inr h2)

theorem jlookup_mem {k : String} {v : JVal} {l : JObj}
    (h : jlookup k l = some v) : (k, v) ∈ l := by
  induction l with
  | nil => simp [jlookup] at h
  | cons e rest ih =>
    obtain ⟨k', v'⟩ := e
    rw [jlookup] at h
    by_cases hk : k' = k
    · rw [if_pos hk] at h
      subst hk
      exact (Option.some.inj h) ▸ List.mem_cons_self _ _
    · rw [if_neg hk] at h
      exact List.mem_cons_of_mem _ (ih h)

theorem jlookup_isSome_of_mem {k : String} {v : JVal} {l : JObj}
    (h : (k, v) ∈ l) : ∃ w, jlookup k l = some w := by
  induction l with
  | nil => simp at h
  | cons e rest ih =>
    obtain ⟨k', v'⟩ := e
    rw [jlookup]
    by_cases hk : k' = k
    · exact ⟨v', if_pos hk ▸ rfl⟩
    · rw [if_neg hk]
      rcases List.mem_cons.mp h with h1 | h2
      · exact absurd (congrArg Prod.fst h1).symm hk
      · exact ih h2

theorem jlookup_of_mem_nodup {l : JObj}
    (hnd : (l.map Prod.fst).Nodup) {k : String} {v : JVal}
    (h : (k, v) ∈ l) : jlookup k l = some v := by
  induction l with
  | nil => simp at h
  | cons e rest ih =>
    obtain ⟨k', v'⟩ := e
    rw [List.map_cons, List.nodup_cons] at hnd
    rw [jlookup]
    rcases List.mem_cons.mp h with h1 | h2
    · obtain ⟨hk, hv⟩ := Prod.mk.injEq .. ▸ h1
      rw [if_pos hk.symm, hv]
    · by_cases hk : k' = k
      · exfalso
        subst hk
        exact hnd.1 (List.mem_map.mpr ⟨(k', v), h2, rfl⟩)
      · rw [if_neg hk]
        exact ih hnd.2 h2

theorem jwfObj_mem {l : JObj} (h : jwfObj l = true) {e : String × JVal}
    (he : e ∈ l) : jwfVal e.2 = true := by
  induction l with
  | nil => simp at he
  | cons e' rest ih =>
    rw [jwfObj, Bool.and_eq_true] at h
    rcases List.mem_cons.mp he with h1 | h2
    · exact h1 ▸ h.1
    · exact ih h.2 h2

theorem jwf_obj_iff {l : JObj} :
    jwfVal (.obj l) = true ↔ (l.map Prod.fst).Nodup ∧ jwfObj l = true := by
  rw [jwfVal, Bool.and_eq_true, decide_eq_true_iff]

theorem mergeMapped_keys (a p : JObj) :
    (mergeMapped a p).map Prod.fst = a.map Prod.fst := by
  induction a with
  | nil => rw [mergeMapped]
  | cons e rest ih =>
    obtain ⟨k, v⟩ := e
    rw [mergeMapped, List.map_cons, List.map_cons, ih]

theorem jlookup_mergeMapped (a p : JObj) (k : String) :
    jlookup k (mergeMapped a p) =
      (jlookup k a).map fun v =>
        match jlookup k p with
        | none => v
        | some vn => mergeVal v vn := by
  induction a with
  | nil => rw [mergeMapped]; rfl
  | cons e rest ih =>
    obtain ⟨k', v'⟩ := e
    rw [mergeMapped, jlookup, jlookup]
    by_cases hk : k' = k
    · subst hk
      rw [if_pos rfl, if_pos rfl]
      rfl
    · rw [if_neg hk, if_neg hk]
      exact ih

theorem mergeVal_obj_obj (a b : JObj) :
    mergeVal (.obj a) (.obj b) =
      .obj (mergeMapped a b ++ b.filter fun e => (jlookup e.1 a).isNone) := by
  rw [mergeVal.eq_def]

theorem interpVal_obj_obj (a b : JObj) (alpha : ℚ) :
    interpVal (.obj a) (.obj b) alpha =
      .obj (interpMapped a b alpha ++
        b.filter fun e => (jlookup e.1 a).isNone) := by
  rw [interpVal.eq_def]

theorem interpVal_num_num (x y alpha : ℚ) :
    interpVal (.num x) (.num y) alpha = .num (x + (y - x) * alpha) := by
  rw [interpVal.eq_def]

theorem sizeOf_val_lt_obj {l : JObj} {e : String × JVal} (he : e ∈ l) :
    sizeOf e.2 < sizeOf (JVal.obj l) := by
  have h1 := List.sizeOf_lt_of_mem he
  obtain ⟨k, v⟩ := e
  simp only [JVal.obj.sizeOf_spec, Prod.mk.sizeOf_spec] at *
  omega

theorem jwfObj_iff {l : JObj} :
    jwfObj l = true ↔ ∀ e ∈ l, jwfVal e.2 = true := by
  induction l with
  | nil => simp [jwfObj]
  | cons e rest ih =>
    rw [jwfObj, Bool.and_eq_true, ih]
    constructor
    · rintro ⟨h1, h2⟩ e' he'
      rcases List.mem_cons.mp he' with h | h
      · exact h ▸ h1
      · exact h2 e' h
    · intro h
      exact ⟨h e (List.mem_cons_self _ _),
        fun e' he' => h e' (List.mem_cons_of_mem _ he')⟩

theorem mem_mergeMapped {a p : JObj} {e : String × JVal}
    (he : e ∈ mergeMapped a p) :
    ∃ k v, (k, v) ∈ a ∧
      e = (k, match jlookup k p with
              | none => v
              | some vn => mergeVal v vn) := by
  induction a with
  | nil => rw [mergeMapped] at he; simp at he
  | cons e' rest ih =>
    obtain ⟨k', v'⟩ := e'
    rw [mergeMapped] at he
    rcases List.mem_cons.mp he with h | h
    · exact ⟨k', v', List.mem_cons_self _ _, h⟩
    · obtain ⟨k, v, hmem, heq⟩ := ih h
      exact ⟨k, v, List.mem_cons_of_mem _ hmem, heq⟩

theorem interpMapped_eq_of_pointwise {a b p : JObj}
    (H : ∀ k v, (k, v) ∈ a → ∃ m, jlookup k b = some m ∧
      interpVal v m 1 = m ∧
      (match jlookup k p with
       | none => v
       | some vn => mergeVal v vn) = m) :
    interpMapped a b 1 = mergeMapped a p := by
  induction a with
  | nil => rw [interpMapped, mergeMapped]
  | cons e rest ih =>
    obtain ⟨k, v⟩ := e
    rw [interpMapped, mergeMapped]
    obtain ⟨m, hlk, hint, hmv⟩ := H k v (List.mem_cons_self _ _)
    rw [hlk, hmv]
    show (k, interpVal v m 1) :: interpMapped rest b 1 = (k, m) :: mergeMapped rest p
    rw [hint]
    exact congrArg _ (ih fun k' v' h' => H k' v' (List.mem_cons_of_mem _ h'))

theorem interpMapped_self_of_pointwise {a b : JObj}
    (H : ∀ k v, (k, v) ∈ a → jlookup k b = some v ∧ interpVal v v 1 = v) :
    interpMapped a b 1 = a := by
  induction a with
  | nil => rw [interpMapped]
  | cons e rest ih =>
    obtain ⟨k, v⟩ := e
    rw [interpMapped]
    obtain ⟨hlk, hint⟩ := H k v (List.mem_cons_self _ _)
    rw [hlk]
    show (k, interpVal v v 1) :: interpMapped rest b 1 = (k, v) :: rest
    rw [hint]
    exact congrArg _ (ih fun k' v' h' => H k' v' (List.mem_cons_of_mem _ h'))

theorem filter_lookup_none_nil {a l : JObj}
    (H : ∀ e ∈ l, ∃ w, jlookup e.1 a = some w) :
    l.filter (fun e => (jlookup e.1 a).isNone) = [] := by
  rw [List.filter_eq_nil_iff]
  intro e he
  obtain ⟨w, hw⟩ := H e he
  simp [hw]

theorem filter_lookup_idem (a p : JObj) :
    (p.filter fun e => (jlookup e.1 a).isNone).filter
        (fun e => (jlookup e.1 a).isNone) =
      p.filter fun e => (jlookup e.1 a).isNone := by
  rw [List.filter_filter]
  simp

/-- The merge `_merge_dict_shallow_inherit` preserves well-formedness (distinct keys
at every dict level). -/
theorem merge_wf_master :
    ∀ (n : ℕ) (vo : JVal), sizeOf vo ≤ n → ∀ vn : JVal,
      jwfVal vo = true → jwfVal vn = true →
      jwfVal (mergeVal vo vn) = true := by
  intro n
  induction n with
  | zero =>
    intro vo h
    exact absurd h (by cases vo <;> simp)
  | succ m ih =>
    intro vo hsz vn hwo hwn
    cases vo with
    | num q => cases vn <;> (rw [mergeVal.eq_def]; exact hwn)
    | str s => cases vn <;> (rw [mergeVal.eq_def]; exact hwn)
    | jbool b => cases vn <;> (rw [mergeVal.eq_def]; exact hwn)
    | arr l => cases vn <;> (rw [mergeVal.eq_def]; exact hwn)
    | obj a =>
      cases vn with
      | num q => rw [mergeVal.eq_def]; exact hwn
      | str s => rw [mergeVal.eq_def]; exact hwn
      | jbool b => rw [mergeVal.eq_def]; exact hwn
      | arr l => rw [mergeVal.eq_def]; exact hwn
      | obj b =>
        rw [mergeVal_obj_obj]
        obtain ⟨hnda, hobja⟩ := jwf_obj_iff.mp hwo
        obtain ⟨hndb, hobjb⟩ := jwf_obj_iff.mp hwn
        rw [jwf_obj_iff]
        refine ⟨?_, ?_⟩
        · rw [List.map_append, mergeMapped_keys, List.nodup_append]
          refine ⟨hnda, hndb.sublist ((List.filter_sublist _).map Prod.fst), ?_⟩
          intro k hka hkb
          obtain ⟨e, he, rfl⟩ := List.mem_map.mp hkb
          have hpred := List.of_mem_filter he
          rw [Option.isNone_iff_eq_none] at hpred
          exact (jlookup_none_iff.mp hpred) hka
        · rw [jwfObj_iff]
          intro e he
          rcases List.mem_append.mp he with h | h
          · obtain ⟨k, v, hmem, heq⟩ := mem_mergeMapped h
            subst heq
            have hv : jwfVal v = true := jwfObj_mem hobja hmem
            have hszv : sizeOf v ≤ m := by
              have hlt := sizeOf_val_lt_obj hmem
              simp only [JVal.obj.sizeOf_spec] at hlt hsz
              omega
            cases hlp : jlookup k b with
            | none =>
              simp only [hlp]
              exact hv
            | some vn' =>
              simp only [hlp]
              exact ih v hszv vn' hv (jwfObj_mem hobjb (jlookup_mem hlp))
          · exact jwfObj_mem hobjb (List.mem_of_mem_filter h)

/-- Interpolating at `alpha = 1` between a config and its inherited
override (`_interp_values c (merge c p) 1`) returns the override exactly;
interpolating a well-formed config with itself is the identity. -/
theorem interp_one_master :
    ∀ (n : ℕ) (vo : JVal), sizeOf vo ≤ n → jwfVal vo = true →
      (interpVal vo vo 1 = vo) ∧
      (∀ vn, jwfVal vn = true →
        interpVal vo (mergeVal vo vn) 1 = mergeVal vo vn) := by
  intro n
  induction n with
  | zero =>
    intro vo h
    exact absurd h (by cases vo <;> simp)
  | succ m ih =>
    intro vo hsz hwo
    have hself : ∀ (l : JObj), vo = .obj l → interpVal vo vo 1 = vo := by
      intro l hl
      subst hl
      obtain ⟨hnd, hobj⟩ := jwf_obj_iff.mp hwo
      rw [interpVal_obj_obj]
      have hfil : l.filter (fun e => (jlookup e.1 l).isNone) = [] :=
        filter_lookup_none_nil fun e he => jlookup_isSome_of_mem
          (show (e.1, e.2) ∈ l from he)
      have hmap : interpMapped l l 1 = l := by
        refine interpMapped_self_of_pointwise fun k v hmem => ?_
        have hszv : sizeOf v ≤ m := by
          have hlt := sizeOf_val_lt_obj hmem
          simp only [JVal.obj.sizeOf_spec] at hlt hsz
          omega
        exact ⟨jlookup_of_mem_nodup hnd hmem,
          (ih v hszv (jwfObj_mem hobj hmem)).1⟩
      rw [hfil, hmap, List.append_nil]
    constructor
    · cases vo with
      | num q =>
        rw [interpVal_num_num]
        norm_num
      | str s => rw [interpVal.eq_def]; norm_num
      | jbool b => rw [interpVal.eq_def]; norm_num
      | arr l => rw [interpVal.eq_def]; norm_num
      | obj l => exact hself l rfl
    · intro vn hwn
      cases vo with
      | num q =>
        cases vn with
        | num y =>
          rw [show mergeVal (.num q) (.num y) = .num y from by
                rw [mergeVal.eq_def]]
          rw [interpVal_num_num]
          norm_num
        | str s => rw [mergeVal.eq_def, interpVal.eq_def]; norm_num
        | jbool b => rw [mergeVal.eq_def, interpVal.eq_def]; norm_num
        | arr l => rw [mergeVal.eq_def, interpVal.eq_def]; norm_num
        | obj b => rw [mergeVal.eq_def, interpVal.eq_def]; norm_num
      | str s => cases vn <;> (rw [mergeVal.eq_def, interpVal.eq_def]; norm_num)
      | jbool bb => cases vn <;> (rw [mergeVal.eq_def, interpVal.eq_def]; norm_num)
      | arr l => cases vn <;> (rw [mergeVal.eq_def, interpVal.eq_def]; norm_num)
      | obj a =>
        cases vn with
        | num y => rw [mergeVal.eq_def, interpVal.eq_def]; norm_num
        | str s => rw [mergeVal.eq_def, interpVal.eq_def]; norm_num
        | jbool b => rw [mergeVal.eq_def, interpVal.eq_def]; norm_num
        | arr l => rw [mergeVal.eq_def, interpVal.eq_def]; norm_num
        | obj b =>
          rw [mergeVal_obj_obj, interpVal_obj_obj]
          obtain ⟨hnda, hobja⟩ := jwf_obj_iff.mp hwo
          obtain ⟨hndb, hobjb⟩ := jwf_obj_iff.mp hwn
          have hmap : interpMapped a
              (mergeMapped a b ++ b.filter fun e => (jlookup e.1 a).isNone) 1 =
              mergeMapped a b := by
            refine interpMapped_eq_of_pointwise fun k v hmem => ?_
            have hv : jwfVal v = true := jwfObj_mem hobja hmem
            have hszv : sizeOf v ≤ m := by
              have hlt := sizeOf_val_lt_obj hmem
              simp only [JVal.obj.sizeOf_spec] at hlt hsz
              omega
            have hlk : jlookup k (mergeMapped a b) =
                some (match jlookup k b with
                      | none => v
                      | some vn => mergeVal v vn) := by
              rw [jlookup_mergeMapped, jlookup_of_mem_nodup hnda hmem]
              rfl
            refine ⟨_, jlookup_append_left hlk, ?_, rfl⟩
            cases hlp : jlookup k b with
            | none =>
              simp only [hlp]
              exact (ih v hszv hv).1
            | some vn' =>
              simp only [hlp]
              exact (ih v hszv hv).2 vn' (jwfObj_mem hobjb (jlookup_mem hlp))
          have hfil : (mergeMapped a b ++
                b.filter fun e => (jlookup e.1 a).isNone).filter
                  (fun e => (jlookup e.1 a).isNone) =
              b.filter fun e => (jlookup e.1 a).isNone := by
            rw [List.filter_append]
            rw [filter_lookup_none_nil (a := a) (l := mergeMapped a b)
              (fun e he => ?_), List.nil_append, filter_lookup_idem]
            have hk : e.1 ∈ a.map Prod.fst := by
              rw [← mergeMapped_keys a b]
              exact List.mem_map.mpr ⟨e, he, rfl⟩
            rcases hke : jlookup e.1 a with _ | w
            · exact absurd hk (jlookup_none_iff.mp hke)
            · exact ⟨w, rfl⟩
          rw [hmap, hfil]

theorem interpObj_merge_one (a p : JObj)
    (hwa : jwfVal (.obj a) = true) (hwp : jwfVal (.obj p) = true) :
    interpObj a (mergeObj a p) 1 = mergeObj a p := by
  have h := (interp_one_master (sizeOf (JVal.obj a)) (.obj a) le_rfl hwa).2
      (.obj p) hwp
  rw [mergeVal_obj_obj, interpVal_obj_obj] at h
  rw [mergeObj, interpObj]
  exact JVal.obj.inj h

theorem mergeObj_wf (a p : JObj)
    (hwa : jwfVal (.obj a) = true) (hwp : jwfVal (.obj p) = true) :
    jwfVal (.obj (mergeObj a p)) = true := by
  have h := merge_wf_master (sizeOf (JVal.obj a)) (.obj a) le_rfl (.obj p)
    hwa hwp
  rw [mergeVal_obj_obj] at h
  rw [mergeObj]
  exact h

theorem snapshotsAux_map_fst (l : List (ℤ × JObj)) :
    ∀ acc : JObj, (snapshotsAux acc l).map Prod.fst = l.map Prod.fst := by
  induction l with
  | nil => intro acc; rw [snapshotsAux]
  | cons e rest ih =>
    intro acc
    obtain ⟨dd, pcfg⟩ := e
    simp only [snapshotsAux, List.map_cons]
    rw [ih]

/-- The cumulative snapshots are all well-formed and each one is the
inherited merge of its predecessor, so adjacent snapshots satisfy the
"interpolation at 1 returns the later snapshot" relation. -/
theorem snapshots_chain (l : List (ℤ × JObj)) :
    ∀ acc : JObj, jwfVal (.obj acc) = true →
      (∀ p ∈ l, jwfVal (.obj p.2) = true) →
      List.Chain' (fun x y : ℤ × JObj => interpObj x.2 y.2 1 = y.2)
          ((0, acc) :: snapshotsAux acc l) ∧
      (∀ e ∈ snapshotsAux acc l, jwfVal (.obj e.2) = true) := by
  induction l with
  | nil =>
    intro acc hacc hl
    rw [snapshotsAux]
    exact ⟨List.chain'_singleton _, by simp⟩
  | cons e rest ih =>
    obtain ⟨dd, pcfg⟩ := e
    intro acc hacc hl
    have hwp : jwfVal (.obj pcfg) = true := hl _ (List.mem_cons_self _ _)
    have hwc : jwfVal (.obj (mergeObj acc pcfg)) = true :=
      mergeObj_wf _ _ hacc hwp
    obtain ⟨hchain, hwfall⟩ := ih (mergeObj acc pcfg) hwc
      (fun p hp => hl p (List.mem_cons_of_mem _ hp))
    simp only [snapshotsAux]
    refine ⟨?_, ?_⟩
    · rw [List.chain'_cons]
      refine ⟨interpObj_merge_one _ _ hacc hwp, ?_⟩
      obtain ⟨hhead, htail⟩ := List.chain'_cons'.mp hchain
      exact List.chain'_cons'.mpr ⟨hhead, htail⟩
    · intro e' he'
      rcases List.mem_cons.mp he' with h | h
      · rw [h]
        exact hwc
      · exact hwfall e' h

/-- The bracketing-pair loop hits a middle version's date exactly: the
bracket is its predecessor pair, `alpha = 1`, and interpolation returns
that version's snapshot. -/
theorem find_bracket_exact :
    ∀ (ivs : List (ℤ × JObj)),
      List.Pairwise (fun x y : ℤ × JObj => x.1 < y.1) ivs →
      List.Chain' (fun x y : ℤ × JObj => interpObj x.2 y.2 1 = y.2) ivs →
      ∀ (i : ℕ) (hi : i < ivs.length), 0 < i →
        find_bracket (ivs.get ⟨i, hi⟩).1 ivs = some (ivs.get ⟨i, hi⟩).2 := by
  intro ivs
  induction ivs with
  | nil =>
    intro _ _ i hi h0
    simp at hi
  | cons x rest ihx =>
    cases rest with
    | nil =>
      intro _ _ i hi h0
      simp only [List.length_cons, List.length_nil] at hi
      omega
    | cons y rest2 =>
      intro hpw hch i hi h0
      obtain ⟨d0, c0⟩ := x
      obtain ⟨d1, c1⟩ := y
      obtain ⟨j, rfl⟩ : ∃ j, i = j + 1 := ⟨i - 1, by omega⟩
      have hget : ((d0, c0) :: (d1, c1) :: rest2).get ⟨j + 1, hi⟩ =
          ((d1, c1) :: rest2).get ⟨j, by simpa using hi⟩ := rfl
      rw [hget, find_bracket]
      rcases Nat.eq_zero_or_pos j with hj0 | hjpos
      · subst hj0
        have hget0 : ((d1, c1) :: rest2).get ⟨0, by simp⟩ = (d1, c1) := rfl
        rw [hget0]
        have hlt : d0 < d1 :=
          (List.pairwise_cons.mp hpw).1 _ (List.mem_cons_self _ _)
        rw [if_pos ⟨hlt.le, le_rfl⟩, if_neg hlt.ne]
        have htot : ¬ (d1 - d0 ≤ 0) := by omega
        rw [if_neg htot]
        have halpha : ((d1 - d0 : ℤ) : ℚ) / ((d1 - d0 : ℤ) : ℚ) = 1 :=
          div_self (by exact_mod_cast sub_ne_zero.mpr hlt.ne')
        rw [halpha, (List.chain'_cons.mp hch).1]
      · obtain ⟨j2, rfl⟩ : ∃ j2, j = j2 + 1 := ⟨j - 1, by omega⟩
        have htailpw : List.Pairwise (fun x y : ℤ × JObj => x.1 < y.1)
            ((d1, c1) :: rest2) := (List.pairwise_cons.mp hpw).2
        have hget2 : ((d1, c1) :: rest2).get ⟨j2 + 1, by simpa using hi⟩ =
            rest2.get ⟨j2, by simpa using hi⟩ := rfl
        have hgt : d1 < (((d1, c1) :: rest2).get ⟨j2 + 1, by simpa using hi⟩).1 := by
          rw [hget2]
          exact (List.pairwise_cons.mp htailpw).1 _ (rest2.get_mem _ _)
        rw [if_neg (fun hc => absurd hc.2 (not_le.mpr hgt))]
        exact ihx htailpw (List.chain'_cons.mp hch).2 (j2 + 1)
          (by simpa using hi) (Nat.succ_pos _)

/-- Resolving via `resolve_chain` at any snapshot's exact date returns that snapshot,
given strictly increasing dates and the inherited-chain relation. -/
theorem resolve_chain_exact (ivs : List (ℤ × JObj))
    (hpw : List.Pairwise (fun x y : ℤ × JObj => x.1 < y.1) ivs)
    (hch : List.Chain' (fun x y : ℤ × JObj => interpObj x.2 y.2 1 = y.2) ivs) :
    ∀ (i : ℕ) (hi : i < ivs.length),
      resolve_chain ivs (ivs.get ⟨i, hi⟩).1 = some (ivs.get ⟨i, hi⟩).2 := by
  cases ivs with
  | nil =>
    intro i hi
    simp at hi
  | cons first rest =>
    intro i hi
    have hpairget := List.pairwise_iff_get.mp hpw
    simp only [resolve_chain]
    rcases Nat.eq_zero_or_pos i with h0 | hpos
    · subst h0
      have hget0 : (first :: rest).get ⟨0, hi⟩ = first := rfl
      rw [hget0, if_pos le_rfl]
    · have hfirst_lt : first.1 < ((first :: rest).get ⟨i, hi⟩).1 := by
        have := hpairget ⟨0, by simp⟩ ⟨i, hi⟩ hpos
        simpa using this
      rw [if_neg (not_le.mpr hfirst_lt)]
      have hlast : (first :: rest).getLast (List.cons_ne_nil _ _) =
          (first :: rest).get ⟨(first :: rest).length - 1, by simp⟩ :=
        List.getLast_eq_get _ _
      rcases Nat.lt_or_ge i ((first :: rest).length - 1) with hmid | hend
      · have hlt_last : ((first :: rest).get ⟨i, hi⟩).1 <
            ((first :: rest).getLast (List.cons_ne_nil _ _)).1 := by
          rw [hlast]
          exact hpairget ⟨i, hi⟩ ⟨(first :: rest).length - 1, by simp⟩ hmid
        rw [if_neg (not_le.mpr hlt_last)]
        rw [find_bracket_exact _ hpw hch i hi hpos]
        rfl
      · have hieq : i = (first :: rest).length - 1 := by
          simp only [List.length_cons] at hi hend ⊢
          omega
        have hlast_le : ((first :: rest).getLast (List.cons_ne_nil _ _)).1 ≤
            ((first :: rest).get ⟨i, hi⟩).1 := by
          rw [hlast]
          subst hieq
          exact le_rfl
        rw [if_pos hlast_le, hlast]
        subst hieq
        rfl

end ConfigHelpers

section ConfigClaims

/-- Claim C6 (amended): for every version collection whose dates are
pairwise distinct (and whose partial configs are well-formed dicts),
resolving at a version's exact date returns that version's exact
cumulative inherited snapshot, with no interpolation drift; a request at
or before the earliest date yields the earliest snapshot and a request
at or after the latest date yields the latest snapshot.  (With duplicate
dates the round-trip fails; see the counterexample.) -/
theorem config_resolve_exact (vs : List (ℤ × JObj))
    (hnd : (vs.map Prod.fst).Nodup)
    (hwf : ∀ p ∈ vs, jwfVal (.obj p.2) = true) :
    (∀ dc ∈ snapshotsAux [] (sortVersions vs),
       load_runtime_config vs dc.1 = some dc.2) ∧
    (∀ (now : ℤ) (first : ℤ × JObj),
       (snapshotsAux [] (sortVersions vs)).head? = some first →
       now ≤ first.1 → load_runtime_config vs now = some first.2) ∧
    (∀ (now : ℤ) (lastv : ℤ × JObj),
       (snapshotsAux [] (sortVersions vs)).getLast? = some lastv →
       lastv.1 ≤ now → load_runtime_config vs now = some lastv.2) := by
  haveI : IsTotal (ℤ × JObj) (fun a b => a.1 ≤ b.1) :=
    ⟨fun a b => le_total a.1 b.1⟩
  haveI : IsTrans (ℤ × JObj) (fun a b => a.1 ≤ b.1) :=
    ⟨fun _ _ _ hab hbc => le_trans hab hbc⟩
  have hperm : List.Perm (sortVersions vs) vs :=
    List.perm_insertionSort _ vs
  have hsorted : List.Pairwise (fun a b : ℤ × JObj => a.1 ≤ b.1)
      (sortVersions vs) := List.sorted_insertionSort _ vs
  have hnd' : ((sortVersions vs).map Prod.fst).Nodup :=
    ((hperm.map Prod.fst).nodup_iff).mpr hnd
  have hne_pw : List.Pairwise (fun a b : ℤ × JObj => a.1 ≠ b.1)
      (sortVersions vs) := List.pairwise_map.mp hnd'
  have hlt_pw : List.Pairwise (fun a b : ℤ × JObj => a.1 < b.1)
      (sortVersions vs) :=
    (hsorted.and hne_pw).imp fun h => lt_of_le_of_ne h.1 h.2
  have hwf' : ∀ p ∈ sortVersions vs, jwfVal (.obj p.2) = true :=
    fun p hp => hwf p (hperm.mem_iff.mp hp)
  have hwfnil : jwfVal (.obj ([] : JObj)) = true := by
    rw [jwf_obj_iff]
    exact ⟨by simp, by rw [jwfObj]⟩
  obtain ⟨hchain0, hwfall⟩ := snapshots_chain (sortVersions vs) [] hwfnil hwf'
  have hchain : List.Chain' (fun x y : ℤ × JObj => interpObj x.2 y.2 1 = y.2)
      (snapshotsAux [] (sortVersions vs)) :=
    (List.chain'_cons'.mp hchain0).2
  have hdates : (snapshotsAux [] (sortVersions vs)).map Prod.fst =
      (sortVersions vs).map Prod.fst := snapshotsAux_map_fst _ _
  have hpw : List.Pairwise (fun x y : ℤ × JObj => x.1 < y.1)
      (snapshotsAux [] (sortVersions vs)) := by
    have h1 : List.Pairwise (· < ·)
        ((sortVersions vs).map Prod.fst) := List.pairwise_map.mpr hlt_pw
    rw [← hdates] at h1
    exact List.pairwise_map.mp h1
  refine ⟨?_, ?_, ?_⟩
  · intro dc hdc
    obtain ⟨i, hget⟩ := List.mem_iff_get.mp hdc
    rw [load_runtime_config, ← hget]
    exact resolve_chain_exact _ hpw hchain i.1 i.2
  · intro now first hfirst hle
    rw [load_runtime_config]
    cases hivs : snapshotsAux [] (sortVersions vs) with
    | nil => rw [hivs] at hfirst; exact absurd hfirst (by simp)
    | cons a t =>
      rw [hivs] at hfirst
      have ha : a = first := by
        simpa using hfirst
      rw [resolve_chain, if_pos (ha ▸ hle)]
      rw [ha]
  · intro now lastv hlast hle
    rw [load_runtime_config]
    cases hivs : snapshotsAux [] (sortVersions vs) with
    | nil => rw [hivs] at hlast; exact absurd hlast (by simp)
    | cons a t =>
      rw [hivs] at hlast hpw
      have hlv : (a :: t).getLast (List.cons_ne_nil _ _) = lastv := by
        have := List.mem_getLast?_eq_getLast (Option.mem_def.mpr hlast)
        obtain ⟨h1, h2⟩ := this
        exact h2.symm
      rw [resolve_chain]
      by_cases hc : now ≤ a.1
      · cases t with
        | nil =>
          rw [if_pos hc]
          rw [show a = lastv from by simpa using hlv]
        | cons b t2 =>
          exfalso
          have hab : a.1 < ((b :: t2).getLast (List.cons_ne_nil _ _)).1 := by
            have hmem : (b :: t2).getLast (List.cons_ne_nil _ _) ∈ b :: t2 :=
              List.getLast_mem _
            exact (List.pairwise_cons.mp hpw).1 _ hmem
          have : (a :: b :: t2).getLast (List.cons_ne_nil _ _) =
              (b :: t2).getLast (List.cons_ne_nil _ _) :=
            List.getLast_cons _
          rw [this] at hlv
          rw [hlv] at hab
          omega
      · rw [if_neg hc, if_pos (hlv ▸ hle), hlv]

/-- Claim C6 counterexample: with two versions sharing the date 5
(`{b:1}` then `{b:2}`), the second version's cumulative snapshot is
`{b:2}`, but resolving at date 5 clamps to the earliest snapshot `{b:1}`:
the round-trip fails for duplicate dates. -/
theorem config_resolve_counterexample :
    load_runtime_config [(5, [("b", JVal.num 1)]), (5, [("b", JVal.num 2)])] 5 =
      some [("b", JVal.num 1)] ∧
    (5, [("b", JVal.num 2)]) ∈
      snapshotsAux []
        (sortVersions [(5, [("b", JVal.num 1)]), (5, [("b", JVal.num 2)])]) ∧
    ([("b", JVal.num 1)] : JObj) ≠ [("b", JVal.num 2)] := by
  have hsort : sortVersions
      [((5:ℤ), [("b", JVal.num 1)]), (5, [("b", JVal.num 2)])] =
      [((5:ℤ), [("b", JVal.num 1)]), (5, [("b", JVal.num 2)])] := by
    simp [sortVersions, List.insertionSort, List.orderedInsert]
  have hm1 : mergeObj [] [("b", JVal.num 1)] = [("b", JVal.num 1)] := by
    rw [mergeObj, mergeMapped]
    simp [jlookup]
  have hm2 : mergeObj [("b", JVal.num 1)] [("b", JVal.num 2)] =
      [("b", JVal.num 2)] := by
    have hmv : mergeVal (JVal.num 1) (JVal.num 2) = JVal.num 2 := by
      rw [mergeVal.eq_def]
    rw [mergeObj, mergeMapped, mergeMapped]
    simp [jlookup, hmv]
  have hsnap : snapshotsAux []
      (sortVersions [((5:ℤ), [("b", JVal.num 1)]), (5, [("b", JVal.num 2)])]) =
      [((5:ℤ), [("b", JVal.num 1)]), (5, [("b", JVal.num 2)])] := by
    rw [hsort]
    simp only [snapshotsAux, hm1, hm2]
  refine ⟨?_, ?_, ?_⟩
  · rw [load_runtime_config, hsnap, resolve_chain, if_pos le_rfl]
  · rw [hsnap]
    simp
  · simp

/-- Witness for the amended C6: two versions dated 0 and 10. -/
theorem config_resolve_exact_witness :
    ((([((0:ℤ), [("x", JVal.num 0)]),
        (10, [("x", JVal.num 10)])].map Prod.fst).Nodup) ∧
     (∀ p ∈ [((0:ℤ), [("x", JVal.num 0)]), (10, [("x", JVal.num 10)])],
        jwfVal (.obj p.2) = true)) ∧
    ((∀ dc ∈ snapshotsAux []
        (sortVersions [((0:ℤ), [("x", JVal.num 0)]), (10, [("x", JVal.num 10)])]),
       load_runtime_config
         [((0:ℤ), [("x", JVal.num 0)]), (10, [("x", JVal.num 10)])] dc.1 =
         some dc.2) ∧
    (∀ (now : ℤ) (first : ℤ × JObj),
       (snapshotsAux []
         (sortVersions [((0:ℤ), [("x", JVal.num 0)]),
           (10, [("x", JVal.num 10)])])).head? = some first →
       now ≤ first.1 →
       load_runtime_config
         [((0:ℤ), [("x", JVal.num 0)]), (10, [("x", JVal.num 10)])] now =
         some first.2) ∧
    (∀ (now : ℤ) (lastv : ℤ × JObj),
       (snapshotsAux []
         (sortVersions [((0:ℤ), [("x", JVal.num 0)]),
           (10, [("x", JVal.num 10)])])).getLast? = some lastv →
       lastv.1 ≤ now →
       load_runtime_config
         [((0:ℤ), [("x", JVal.num 0)]), (10, [("x", JVal.num 10)])] now =
         some lastv.2)) :=
  ⟨⟨by simp, fun p hp => by
      rcases List.mem_cons.mp hp with h | h
      · subst h
        rw [jwf_obj_iff]
        exact ⟨by simp, by simp [jwfObj, jwfVal]⟩
      · rcases List.mem_cons.mp h with h2 | h2
        · subst h2
          rw [jwf_obj_iff]
          exact ⟨by simp, by simp [jwfObj, jwfVal]⟩
        · exact absurd h2 (by simp)⟩,
   config_resolve_exact _ (by simp)
     (fun p hp => by
       rcases List.mem_cons.mp hp with h | h
       · subst h
         rw [jwf_obj_iff]
         exact ⟨by simp, by simp [jwfObj, jwfVal]⟩
       · rcases List.mem_cons.mp h with h2 | h2
         · subst h2
           rw [jwf_obj_iff]
           exact ⟨by simp, by simp [jwfObj, jwfVal]⟩
         · exact absurd h2 (by simp))⟩

end ConfigClaims

end Aquarium
